import Mathlib

/-!
Verification of the financial aggregation core of the finance-platform
repository (src/unnamed/part_001, the current frontend script).

Modelling conventions (shallow embedding):
* JavaScript numbers are modelled as rationals; a JavaScript value that can
  reach `parseNumber` is modelled by `JVal`, recording only the two
  observations the core makes of it: its truthiness and the result of
  `Number(v)` (`some q` when finite, `none` for NaN / infinities).
* Date strings in the ledger are the zero-padded `YYYY-MM-DD` strings that
  HTML date inputs produce; `new Date(s)` applied to such a string is
  modelled by `parseYMD` (valid calendar dates parse, everything else is an
  invalid date), and `getMonth` / `getFullYear` read the string's fields.
* JavaScript `Map`s are modelled as association lists in insertion order:
  `mapSet` overwrites in place on an existing key and appends a new key.
* String comparison (`<`, `>`) is the lexicographic order on characters,
  matching JavaScript's code-unit comparison on these ASCII strings.
-/

/-- A JavaScript value as observed by the aggregation core: its truthiness
and the result of converting it with `Number` (`none` when not finite). -/
structure JVal where
  truthy : Bool
  num : Option ℚ
  deriving DecidableEq, Repr

/-- A finite JavaScript number; falsy exactly when it equals 0. -/
def jnum (q : ℚ) : JVal := ⟨decide (q ≠ 0), some q⟩

/-- An absent field (`undefined`): falsy, converts to NaN. -/
def jundef : JVal := ⟨false, none⟩

/-- A non-numeric truthy value such as the string "abc". -/
def jnan : JVal := ⟨true, none⟩

/-- `parseNumber` (part_001 line 104): `Number(input)` when finite, else 0. -/
def parseNumber (v : JVal) : ℚ := v.num.getD 0

/-- JavaScript `a || b`. -/
def jsOr (a b : JVal) : JVal := if a.truthy then a else b

/-- A line item of an invoice (fields `qty` and `price`). -/
structure LineItem where
  qty : JVal
  price : JVal
  deriving DecidableEq, Repr

/-- `computeInvoiceTotal` (part_001 lines 1521-1523):
`items.reduce((sum, i) => sum + (parseNumber(i.qty || 1) * parseNumber(i.price)), 0)`. -/
def computeInvoiceTotal (items : List LineItem) : ℚ :=
  items.foldl (fun sum i => sum + parseNumber (jsOr i.qty (jnum 1)) * parseNumber i.price) 0

/-- Modelled from the spec's words for claim C5 (refinement target, not from
the source): the total an item list would have if a quantity that is absent
defaulted to 1 and any negative or non-numeric quantity or price were
coerced to 0 before multiplication. -/
def specInvoiceTotal (items : List LineItem) : ℚ :=
  (items.map (fun i =>
    (match i.qty.num with
     | none => if i.qty.truthy then 0 else 1
     | some q => if q < 0 then 0 else q) *
    (match i.price.num with
     | none => 0
     | some p => if p < 0 then 0 else p))).sum

/-- The effective quantity factor used by the code for one line item. -/
def itemQty (i : LineItem) : ℚ :=
  if i.qty.truthy then parseNumber i.qty else 1

lemma computeInvoiceTotal_foldl (items : List LineItem) (a : ℚ) :
    items.foldl (fun sum i => sum + parseNumber (jsOr i.qty (jnum 1)) * parseNumber i.price) a
      = a + (items.map (fun i => itemQty i * parseNumber i.price)).sum := by
  induction items generalizing a with
  | nil => simp
  | cons i rest ih =>
      simp only [List.foldl_cons, List.map_cons, List.sum_cons, ih]
      have hq : parseNumber (jsOr i.qty (jnum 1)) = itemQty i := by
        unfold jsOr itemQty
        by_cases h : i.qty.truthy
        · simp [h]
        · simp [h, jnum, parseNumber]
      rw [hq]; ring

/-! ## Dates

`new Date(s)` on the zero-padded `YYYY-MM-DD` strings the ledger stores:
a string of that exact shape denoting a valid calendar date parses, and
`getFullYear` / `getMonth` recover its fields; every other string yields an
invalid date (`getMonth()` is NaN, `monthKey` returns the sentinel). -/

/-- Morally `Char.isDigit`, phrased on the code unit for easy arithmetic. -/
def isDig (c : Char) : Bool := 48 ≤ c.toNat && c.toNat ≤ 57

/-- The numeric value of a digit character. -/
def digVal (c : Char) : Nat := c.toNat - 48

/-- Days in a calendar month, with leap-year handling, as validated by the
ISO date parser of `new Date`. -/
def daysInMonth (y m : Nat) : Nat :=
  if m = 2 then
    (if y % 4 = 0 && (y % 100 ≠ 0 || y % 400 = 0) then 29 else 28)
  else if m = 4 || m = 6 || m = 9 || m = 11 then 30
  else 31

/-- Assemble `(year, month, day)` from the eight digit characters of a
`YYYY-MM-DD` string. -/
def ymdOf (y1 y2 y3 y4 m1 m2 d1 d2 : Char) : Nat × Nat × Nat :=
  (((digVal y1 * 10 + digVal y2) * 10 + digVal y3) * 10 + digVal y4,
   digVal m1 * 10 + digVal m2,
   digVal d1 * 10 + digVal d2)

/-- Is `(y, m, d)` a valid calendar date (month and day in range)? -/
def validCalendar (t : Nat × Nat × Nat) : Bool :=
  1 ≤ t.2.1 && t.2.1 ≤ 12 && 1 ≤ t.2.2 && t.2.2 ≤ daysInMonth t.1 t.2.1

/-- Parse a zero-padded `YYYY-MM-DD` string denoting a valid calendar date
into `(year, month, day)`; `none` models an invalid `Date`. -/
def parseYMD (s : String) : Option (Nat × Nat × Nat) :=
  match s.data with
  | [y1, y2, y3, y4, h1, m1, m2, h2, d1, d2] =>
    if isDig y1 && isDig y2 && isDig y3 && isDig y4 && h1 = '-' &&
       isDig m1 && isDig m2 && h2 = '-' && isDig d1 && isDig d2 then
      (if validCalendar (ymdOf y1 y2 y3 y4 m1 m2 d1 d2) then
        some (ymdOf y1 y2 y3 y4 m1 m2 d1 d2)
      else none)
    else none
  | _ => none

/-- A date string the store considers valid: it parses. -/
def validYMD (s : String) : Bool := (parseYMD s).isSome

/-- `new Date(s).getMonth()`: the 0-based month index, `none` for NaN. -/
def monthIdx (s : String) : Option (Fin 12) :=
  (parseYMD s).bind (fun t => if h : t.2.1 - 1 < 12 then some ⟨t.2.1 - 1, h⟩ else none)

lemma digVal_le_of_isDig {c : Char} (h : isDig c = true) : digVal c ≤ 9 := by
  unfold isDig at h
  simp only [Bool.and_eq_true, decide_eq_true_eq] at h
  unfold digVal; omega

lemma parseYMD_bounds {s : String} {y m d : Nat} (h : parseYMD s = some (y, m, d)) :
    1 ≤ m ∧ m ≤ 12 ∧ y ≤ 9999 := by
  unfold parseYMD at h
  split at h
  case h_2 => exact absurd h (by simp)
  case h_1 y1 y2 y3 y4 h1 m1 m2 h2 d1 d2 heq =>
    split at h
    case isFalse => exact absurd h (by simp)
    case isTrue hdig =>
      split at h
      case isFalse => exact absurd h (by simp)
      case isTrue hrange =>
        simp only [Option.some.injEq] at h
        unfold validCalendar ymdOf at hrange
        unfold ymdOf at h
        simp only [Prod.mk.injEq] at h
        obtain ⟨hy, hm, hd⟩ := h
        subst hy; subst hm; subst hd
        simp only [Bool.and_eq_true, decide_eq_true_eq] at hdig hrange
        have b1 := digVal_le_of_isDig hdig.1.1.1.1.1.1.1.1.1
        have b2 := digVal_le_of_isDig hdig.1.1.1.1.1.1.1.1.2
        have b3 := digVal_le_of_isDig hdig.1.1.1.1.1.1.1.2
        have b4 := digVal_le_of_isDig hdig.1.1.1.1.1.1.2
        refine ⟨by omega, by omega, by omega⟩

lemma monthIdx_isSome_of_valid {s : String} (h : validYMD s = true) :
    (monthIdx s).isSome = true := by
  unfold validYMD at h
  obtain ⟨⟨y, m, d⟩, hp⟩ := Option.isSome_iff_exists.mp h
  have hb := parseYMD_bounds hp
  unfold monthIdx
  rw [hp]
  have h12 : m - 1 < 12 := by omega
  simp [h12]

/-- A decimal digit character from its value (`digitChar k` has code 48+k). -/
def decDigit (k : Nat) : Char := Char.ofNat (48 + k % 10)

/-- JavaScript `String(y)` for the years a parsed date can produce
(`y ≤ 9999`): the decimal representation without padding. -/
def natStr (y : Nat) : String :=
  if y < 10 then ⟨[decDigit y]⟩
  else if y < 100 then ⟨[decDigit (y / 10), decDigit y]⟩
  else if y < 1000 then ⟨[decDigit (y / 100), decDigit (y / 10), decDigit y]⟩
  else ⟨[decDigit (y / 1000), decDigit (y / 100), decDigit (y / 10), decDigit y]⟩

/-- `String(n).padStart(2, '0')` for the month numbers 1..12. -/
def pad2 (n : Nat) : String :=
  if n < 10 then ⟨['0', decDigit n]⟩ else natStr n

/-- `monthKey` (part_001 lines 335-340): the `YYYY-MM` bucket of a date
string, or the sentinel `"Unknown"` for an empty or unparseable one. -/
def monthKey (s : String) : String :=
  if s = "" then "Unknown"
  else
    match parseYMD s with
    | none => "Unknown"
    | some t => natStr t.1 ++ "-" ++ pad2 t.2.1

/-! ## JavaScript string primitives

JavaScript compares strings by code units; these structural versions of
`<`, `≤`, `startsWith` and `toLowerCase` (ASCII) act on the character
lists underlying Lean strings. -/

/-- Code-unit lexicographic `<` on character lists. -/
def lexLtB : List Char → List Char → Bool
  | [], [] => false
  | [], _ :: _ => true
  | _ :: _, [] => false
  | a :: as, b :: bs =>
    if a.toNat < b.toNat then true
    else if b.toNat < a.toNat then false
    else lexLtB as bs

/-- JavaScript `a < b` on strings. -/
def strLtB (a b : String) : Bool := lexLtB a.data b.data

/-- JavaScript `a <= b` on strings (`!(b < a)`). -/
def strLeB (a b : String) : Bool := !strLtB b a

/-- JavaScript `s.startsWith(p)`. -/
def strStartsWith (s p : String) : Bool := List.isPrefixOf p.data s.data

/-- `toLowerCase` on one ASCII character. -/
def charToLower (c : Char) : Char :=
  if 65 ≤ c.toNat && c.toNat ≤ 90 then Char.ofNat (c.toNat + 32) else c

/-- JavaScript `s.toLowerCase()` on the ASCII strings the ledger stores. -/
def strToLower (s : String) : String := ⟨s.data.map charToLower⟩

lemma lexLtB_asymm : ∀ {a b : List Char}, lexLtB a b = true → lexLtB b a = false := by
  intro a
  induction a with
  | nil => intro b h; cases b <;> simp_all [lexLtB]
  | cons x xs ih =>
      intro b h
      cases b with
      | nil => simp_all [lexLtB]
      | cons y ys =>
          unfold lexLtB at h ⊢
          by_cases h1 : x.toNat < y.toNat
          · rw [if_neg (by omega), if_pos h1]
          · rw [if_neg h1] at h
            by_cases h2 : y.toNat < x.toNat
            · rw [if_pos h2] at h; exact absurd h (by simp)
            · rw [if_neg h2] at h
              rw [if_neg h2, if_neg h1]
              exact ih h

lemma strLtB_asymm {a b : String} (h : strLtB a b = true) : strLtB b a = false :=
  lexLtB_asymm h

lemma strLeB_total (a b : String) : strLeB a b = true ∨ strLeB b a = true := by
  cases h : strLtB b a
  · left; unfold strLeB; rw [h]; rfl
  · right; unfold strLeB; rw [strLtB_asymm h]; rfl

/-! ## Ledger records and app state -/

/-- A sales entry (`state.sellEntries`). -/
structure SellEntry where
  date : String
  type : String
  amount : JVal
  deriving DecidableEq, Repr

/-- A purchase invoice (`state.invoices`); `type` is free text, absent
modelled as `""` (the code reads `inv.type || ''`). -/
structure Invoice where
  invoiceDate : String
  type : String
  items : List LineItem
  deriving DecidableEq, Repr

/-- An expense-type catalog entry (`state.expenseTypes`). -/
structure ExpenseType where
  id : String
  name : String
  deriving DecidableEq, Repr

/-- A miscellaneous expense (`state.otherExpenses`). -/
structure OtherExpense where
  date : String
  typeId : String
  amount : JVal
  deriving DecidableEq, Repr

/-- The read-only snapshot of the ledger store consumed by the core. -/
structure AppState where
  sellEntries : List SellEntry
  invoices : List Invoice
  expenseTypes : List ExpenseType
  otherExpenses : List OtherExpense
  deriving Repr

/-! ## JavaScript Map model

Association lists in insertion order. `Map.set` overwrites the value of an
existing key in place and appends a fresh key at the end; `Map.get` returns
the value at the key or `undefined` (`none`). -/

/-- `Map.has`. -/
def mapContains {α : Type} : List (String × α) → String → Bool
  | [], _ => false
  | p :: rest, k => p.1 = k || mapContains rest k

/-- `Map.get` (`none` is `undefined`). -/
def mapGet {α : Type} : List (String × α) → String → Option α
  | [], _ => none
  | p :: rest, k => if p.1 = k then some p.2 else mapGet rest k

/-- `Map.set`: overwrite in place on an existing key (keys are unique by
construction, so replacing the first occurrence is the same), append a
fresh key at the end. -/
def mapSet {α : Type} : List (String × α) → String → α → List (String × α)
  | [], k, v => [(k, v)]
  | p :: rest, k, v => if p.1 = k then (k, v) :: rest else p :: mapSet rest k v

/-! ## Rows of the P&L table -/

/-- A 12-slot monthly row. -/
def Row : Type := Fin 12 → ℚ

/-- `initRow()`: `months.map(() => 0)`. -/
def zeroRow : Row := fun _ => 0

/-- `row[i] += v` on a 12-slot array. -/
def addAt (r : Row) (i : Fin 12) (v : ℚ) : Row :=
  fun j => if j = i then r j + v else r j

/-- `arr.reduce((a, b) => a + b, 0)` on a 12-slot row. -/
def rowTotal (r : Row) : ℚ := ∑ i : Fin 12, r i

/-- `row[i] += v` guarded by the index: an invalid date gives index NaN and
`arr[NaN] += v` leaves all 12 slots unchanged. -/
def addAtOpt (r : Row) (i : Option (Fin 12)) (v : ℚ) : Row :=
  match i with
  | some j => addAt r j v
  | none => r

lemma rowTotal_addAt (r : Row) (i : Fin 12) (v : ℚ) :
    rowTotal (addAt r i v) = rowTotal r + v := by
  unfold rowTotal addAt
  have : ∀ j : Fin 12, (if j = i then r j + v else r j) = r j + (if j = i then v else 0) := by
    intro j; by_cases h : j = i <;> simp [h]
  rw [Finset.sum_congr rfl (fun j _ => this j), Finset.sum_add_distrib]
  simp

lemma rowTotal_zero : rowTotal zeroRow = 0 := by
  unfold rowTotal zeroRow; simp

/-! ## Profit & Loss calculator (`calcPLForYear`, part_001 lines 136-201) -/

/-- `"{year}-01-01"`. -/
def yearStartStr (year : Nat) : String := toString year ++ "-01-01"

/-- `"{year}-12-31"`. -/
def yearEndStr (year : Nat) : String := toString year ++ "-12-31"

/-- The guard shared by all three loops: skip a record whose date is falsy
(empty) or lies lexicographically outside `[yearStart, yearEnd]`. -/
def dateSkipped (year : Nat) (d : String) : Bool :=
  d = "" || strLtB d (yearStartStr year) || strLtB (yearEndStr year) d

/-- One step of the sales loop (lines 145-149). -/
def salesStep (year : Nat) (r : Row) (e : SellEntry) : Row :=
  if dateSkipped year e.date then r
  else addAtOpt r (monthIdx e.date) (parseNumber e.amount)

/-- The `sales` row: bucket in-year sell entries by month, summing amounts. -/
def salesRowOf (year : Nat) (entries : List SellEntry) : Row :=
  entries.foldl (salesStep year) zeroRow

/-- `if (!rows.has(k)) rows.set(k, initRow())`: seed a missing key with an
all-zero row. -/
def ensureKey (m : List (String × Row)) (k : String) : List (String × Row) :=
  if mapContains m k then m else m ++ [(k, zeroRow)]

/-- `rows.get(k)[idx] += v` after `ensureKey`: add `v` into the row at key
`k` at the (possibly NaN) month index. -/
def mapAddAt (m : List (String × Row)) (k : String) (i : Option (Fin 12)) (v : ℚ) :
    List (String × Row) :=
  mapSet (ensureKey m k) k
    (addAtOpt ((mapGet (ensureKey m k) k).getD zeroRow) i v)

/-- One step of the invoice loop (lines 154-164): product invoices add
their total to `cogs` at their month index, all others accumulate under the
key "Invoice Expenses" (creating that row on first use). -/
def invoiceStep (year : Nat) (acc : Row × List (String × Row)) (inv : Invoice) :
    Row × List (String × Row) :=
  if dateSkipped year inv.invoiceDate then acc
  else
    if strToLower inv.type = "product" then
      (addAtOpt acc.1 (monthIdx inv.invoiceDate) (computeInvoiceTotal inv.items), acc.2)
    else
      (acc.1,
       mapAddAt acc.2 "Invoice Expenses" (monthIdx inv.invoiceDate)
         (computeInvoiceTotal inv.items))

/-- The `(cogs, invoiceExpenseRows)` pair after the invoice loop. -/
def invoicePass (year : Nat) (invoices : List Invoice) : Row × List (String × Row) :=
  invoices.foldl (invoiceStep year) (zeroRow, [])

/-- `new Map(state.expenseTypes.map(t => [t.id, t.name]))`: id-to-name
lookup with JavaScript Map semantics (a duplicate id keeps the last name at
the first occurrence's position). -/
def typeByIdOf (types : List ExpenseType) : List (String × String) :=
  types.foldl (fun m t => mapSet m t.id t.name) []

/-- The category name an expense resolves to (line 174):
`typeById.get(exp.typeId) || 'Other'`. -/
def resolveName (typeById : List (String × String)) (typeId : String) : String :=
  match mapGet typeById typeId with
  | none => "Other"
  | some n => if n = "" then "Other" else n

/-- One step of the other-expenses loop (lines 171-177). -/
def expenseStep (year : Nat) (typeById : List (String × String))
    (m : List (String × Row)) (e : OtherExpense) : List (String × Row) :=
  if dateSkipped year e.date then m
  else
    mapAddAt m (resolveName typeById e.typeId) (monthIdx e.date) (parseNumber e.amount)

/-- Seed `expenseRows` (lines 168-170): start from a copy of
`invoiceExpenseRows` and `set` an all-zero row for every catalog name. -/
def seedExpenseRows (ieRows : List (String × Row)) (typeById : List (String × String)) :
    List (String × Row) :=
  (typeById.map (fun p => p.2)).foldl (fun m name => mapSet m name zeroRow) ieRows

/-- `sumCols` (lines 180-184): column-wise sum of a list of rows. -/
def sumCols (rows : List Row) : Row :=
  rows.foldl (fun sums r => fun i => sums i + r i) zeroRow

/-- The P&L table returned by `calcPLForYear` (lines 191-200). -/
structure PLTable where
  months : List String
  sales : Row
  cogs : Row
  grossProfit : Row
  expenseRows : List (String × Row)
  otherExpensesSum : Row
  ebit : Row
  net : Row
  totalsSales : ℚ
  totalsCogs : ℚ
  totalsGrossProfit : ℚ
  totalsOtherExpenses : ℚ
  totalsEbit : ℚ
  totalsNet : ℚ

/-- `calcPLForYear` (part_001 lines 136-201), over an explicit snapshot. -/
def calcPLForYear (year : Nat) (st : AppState) : PLTable :=
  let sales := salesRowOf year st.sellEntries
  let pass := invoicePass year st.invoices
  let cogs := pass.1
  let typeById := typeByIdOf st.expenseTypes
  let seeded := seedExpenseRows pass.2 typeById
  let expenseRows := st.otherExpenses.foldl (expenseStep year typeById) seeded
  let grossProfit : Row := fun i => sales i - cogs i
  let otherExpensesSum := sumCols (expenseRows.map (fun p => p.2))
  let ebit : Row := fun i => grossProfit i - otherExpensesSum i
  let net := ebit
  { months := (List.range 12).map (fun i => toString year ++ "-" ++ pad2 (i + 1)),
    sales := sales, cogs := cogs, grossProfit := grossProfit,
    expenseRows := expenseRows, otherExpensesSum := otherExpensesSum,
    ebit := ebit, net := net,
    totalsSales := rowTotal sales, totalsCogs := rowTotal cogs,
    totalsGrossProfit := rowTotal grossProfit,
    totalsOtherExpenses := rowTotal otherExpensesSum,
    totalsEbit := rowTotal ebit, totalsNet := rowTotal net }

/-! ## Dashboard aggregators (part_001 lines 335-443) -/

/-- A numeric month-bucket map (`Map` from month key to running sum). -/
def mapAdd (m : List (String × ℚ)) (k : String) (v : ℚ) : List (String × ℚ) :=
  mapSet m k ((mapGet m k).getD 0 + v)

/-- A derived time series: parallel label and value sequences. -/
structure MonthSeries where
  labels : List String
  values : List ℚ
  deriving DecidableEq, Repr

/-- Insert a string into a (sorted) list, before the first element it is
`<=` to. -/
def insertStr (x : String) : List String → List String
  | [] => [x]
  | y :: ys => if strLeB x y then x :: y :: ys else y :: insertStr x ys

/-- `Array.from(keys).sort()`: the keys in ascending code-unit order. -/
def sortStrs (l : List String) : List String := l.foldr insertStr []

/-- `mapToSortedSeries` (part_001 lines 406-410). -/
def mapToSortedSeries (m : List (String × ℚ)) : MonthSeries :=
  { labels := sortStrs (m.map (fun p => p.1)),
    values := (sortStrs (m.map (fun p => p.1))).map (fun l => (mapGet m l).getD 0) }

/-- The inclusive optional date-range filter used by the dashboard
aggregators: skip when a bound is set (non-empty) and the date falls
outside it. -/
def rangeSkipped (fromDate toDate d : String) : Bool :=
  (fromDate ≠ "" && strLtB d fromDate) || (toDate ≠ "" && strLtB toDate d)

/-- One step of `aggregateByMonthSell` (lines 346-357): fiscal entries go
to the first map, everything else to the second. -/
def sellAggStep (fromDate toDate : String) (acc : List (String × ℚ) × List (String × ℚ))
    (e : SellEntry) : List (String × ℚ) × List (String × ℚ) :=
  if rangeSkipped fromDate toDate e.date then acc
  else if e.type = "fiscal" then
    (mapAdd acc.1 (monthKey e.date) (parseNumber e.amount), acc.2)
  else
    (acc.1, mapAdd acc.2 (monthKey e.date) (parseNumber e.amount))

/-- The pair of series returned by `aggregateByMonthSell`. -/
structure SellAgg where
  fiscal : MonthSeries
  nonFiscal : MonthSeries
  deriving DecidableEq, Repr

/-- `aggregateByMonthSell` (part_001 lines 342-363). -/
def aggregateByMonthSell (entries : List SellEntry) (fromDate toDate : String) : SellAgg :=
  let maps := entries.foldl (sellAggStep fromDate toDate) ([], [])
  { fiscal := mapToSortedSeries maps.1, nonFiscal := mapToSortedSeries maps.2 }

/-- One step of the purchases loop of `aggregateByMonthExpenses`
(lines 380-388). -/
def buyAggStep (fromDate toDate : String) (m : List (String × ℚ)) (inv : Invoice) :
    List (String × ℚ) :=
  if rangeSkipped fromDate toDate inv.invoiceDate then m
  else mapAdd m (monthKey inv.invoiceDate) (computeInvoiceTotal inv.items)

/-- One step of the other-expenses loop of `aggregateByMonthExpenses`
(lines 391-398). -/
def expAggStep (fromDate toDate : String) (m : List (String × ℚ)) (e : OtherExpense) :
    List (String × ℚ) :=
  if rangeSkipped fromDate toDate e.date then m
  else mapAdd m (monthKey e.date) (parseNumber e.amount)

/-- The pair of series returned by `aggregateByMonthExpenses`. -/
structure ExpensesAgg where
  purchases : MonthSeries
  expenses : MonthSeries
  deriving DecidableEq, Repr

/-- `aggregateByMonthExpenses` (part_001 lines 375-404). -/
def aggregateByMonthExpenses (invoices : List Invoice) (otherExpenses : List OtherExpense)
    (fromDate toDate : String) : ExpensesAgg :=
  { purchases := mapToSortedSeries (invoices.foldl (buyAggStep fromDate toDate) []),
    expenses := mapToSortedSeries (otherExpenses.foldl (expAggStep fromDate toDate) []) }

/-! ## Series aligner (`alignSeriesLabels`, part_001 lines 434-443) -/

/-- `Set.add`: keep the first occurrence, append a fresh element. -/
def setAdd (seen : List String) (x : String) : List String :=
  if seen.contains x then seen else seen ++ [x]

/-- `Array.indexOf`: the index of the first occurrence, if any. -/
def jsIndexOf : List String → String → Option Nat
  | [], _ => none
  | y :: ys, x => if y = x then some 0 else (jsIndexOf ys x).map (fun i => i + 1)

/-- The aligner's output: one shared label axis and one same-length value
vector per input series. -/
structure AlignedSeries where
  labels : List String
  alignedValues : List (List ℚ)
  deriving DecidableEq, Repr

/-- `alignSeriesLabels` (part_001 lines 434-443). -/
def alignSeriesLabels (seriesList : List MonthSeries) : AlignedSeries :=
  let labelSet := seriesList.foldl (fun acc s => s.labels.foldl setAdd acc) []
  let labels := sortStrs labelSet
  { labels := labels,
    alignedValues := seriesList.map (fun s => labels.map (fun l =>
      match jsIndexOf s.labels l with
      | some i => s.values.getD i 0
      | none => 0)) }

/-! ## Drill-down queries (`openPLDetails`, part_001 lines 252-302)

The record sets backing the supporting-transactions table of one P&L cell;
`monthStr` is the `"{year}-{month}"` prefix the modal filters on. -/

/-- Records listed for the "Invoice Expenses" row (lines 261-272). -/
def plDetailsInvoiceExpenses (st : AppState) (monthStr : String) : List Invoice :=
  (st.invoices.filter (fun inv => strToLower inv.type ≠ "product")).filter
    (fun inv => strStartsWith inv.invoiceDate monthStr)

/-- Records listed for the COGS row (lines 273-284). -/
def plDetailsCogs (st : AppState) (monthStr : String) : List Invoice :=
  (st.invoices.filter (fun inv => strToLower inv.type = "product")).filter
    (fun inv => strStartsWith inv.invoiceDate monthStr)

/-- Records listed for any other row label (lines 285-292): resolve the
label to a catalog entry and match on its id (or `''` when unknown). -/
def plDetailsOther (st : AppState) (monthStr label : String) : List OtherExpense :=
  (st.otherExpenses.filter
    (fun e => e.typeId = ((st.expenseTypes.find? (fun t => t.name = label)).map
      (fun t => t.id)).getD "")).filter
    (fun e => strStartsWith e.date monthStr)

/-! ## Map lemmas -/

/-- The key list of a map. -/
def mapKeys {α : Type} (m : List (String × α)) : List String :=
  m.map (fun p => p.1)

lemma mapContains_iff_mem {α : Type} (m : List (String × α)) (k : String) :
    mapContains m k = true ↔ k ∈ mapKeys m := by
  induction m with
  | nil => simp [mapContains, mapKeys]
  | cons p rest ih =>
      simp only [mapContains, mapKeys, List.map_cons, List.mem_cons, Bool.or_eq_true,
        decide_eq_true_eq]
      rw [ih]
      unfold mapKeys
      constructor
      · rintro (h | h)
        · exact Or.inl h.symm
        · exact Or.inr h
      · rintro (h | h)
        · exact Or.inl h.symm
        · exact Or.inr h

lemma mapContains_isSome {α : Type} (m : List (String × α)) (k : String) :
    mapContains m k = (mapGet m k).isSome := by
  induction m with
  | nil => simp [mapContains, mapGet]
  | cons p rest ih =>
      simp only [mapContains, mapGet]
      by_cases hp : p.1 = k
      · simp [hp]
      · simp [hp, ih]

lemma mapGet_mapSet_self {α : Type} (m : List (String × α)) (k : String) (v : α) :
    mapGet (mapSet m k v) k = some v := by
  induction m with
  | nil => simp [mapSet, mapGet]
  | cons p rest ih =>
      unfold mapSet
      by_cases hp : p.1 = k
      · rw [if_pos hp]; simp [mapGet]
      · rw [if_neg hp]; simp only [mapGet, if_neg hp]; exact ih

lemma mapGet_mapSet_ne {α : Type} (m : List (String × α)) (k k' : String) (v : α)
    (h : k' ≠ k) : mapGet (mapSet m k v) k' = mapGet m k' := by
  induction m with
  | nil => simp [mapSet, mapGet, Ne.symm h]
  | cons p rest ih =>
      unfold mapSet
      by_cases hp : p.1 = k
      · rw [if_pos hp]
        unfold mapGet
        rw [if_neg (show ¬ (k, v).1 = k' from by simpa using Ne.symm h),
            if_neg (show ¬ p.1 = k' from by rw [hp]; exact Ne.symm h)]
      · rw [if_neg hp]
        unfold mapGet
        by_cases hp' : p.1 = k'
        · rw [if_pos hp', if_pos hp']
        · rw [if_neg hp', if_neg hp']; exact ih

lemma mapKeys_mapSet {α : Type} (m : List (String × α)) (k : String) (v : α) :
    mapKeys (mapSet m k v) =
      if mapContains m k then mapKeys m else mapKeys m ++ [k] := by
  induction m with
  | nil => simp [mapSet, mapKeys, mapContains]
  | cons p rest ih =>
      simp only [mapSet, mapContains]
      by_cases hp : p.1 = k
      · rw [if_pos hp]
        simp [mapKeys, hp]
      · rw [if_neg hp]
        by_cases hc : mapContains rest k = true
        · simp only [hc] at ih
          rw [if_pos trivial] at ih
          unfold mapKeys at ih
          simp [mapKeys, hp, hc, ih]
        · rw [Bool.not_eq_true] at hc
          simp only [hc, Bool.false_eq_true, if_false] at ih
          unfold mapKeys at ih
          simp [mapKeys, hp, hc, ih]

lemma mapGet_append_left {α : Type} (m1 m2 : List (String × α)) (k : String)
    (h : (mapGet m1 k).isSome = true) : mapGet (m1 ++ m2) k = mapGet m1 k := by
  induction m1 with
  | nil => simp [mapGet] at h
  | cons p rest ih =>
      simp only [mapGet] at h
      simp only [List.cons_append, mapGet]
      by_cases hp : p.1 = k
      · rw [if_pos hp, if_pos hp]
      · rw [if_neg hp] at h
        rw [if_neg hp, if_neg hp]
        exact ih h

lemma mapGet_append_right {α : Type} (m1 m2 : List (String × α)) (k : String)
    (h : mapGet m1 k = none) : mapGet (m1 ++ m2) k = mapGet m2 k := by
  induction m1 with
  | nil => simp
  | cons p rest ih =>
      simp only [mapGet] at h
      simp only [List.cons_append, mapGet]
      by_cases hp : p.1 = k
      · rw [if_pos hp] at h; exact absurd h (by simp)
      · rw [if_neg hp] at h
        rw [if_neg hp]
        exact ih h

lemma mapGet_none_of_not_contains {α : Type} {m : List (String × α)} {k : String}
    (h : mapContains m k = false) : mapGet m k = none := by
  rw [mapContains_isSome] at h
  cases hg : mapGet m k
  · rfl
  · rw [hg] at h; simp at h

lemma mapGet_ensureKey_self (m : List (String × Row)) (k : String) :
    mapGet (ensureKey m k) k = some ((mapGet m k).getD zeroRow) := by
  unfold ensureKey
  by_cases hc : mapContains m k = true
  · rw [if_pos hc]
    have := hc
    rw [mapContains_isSome] at this
    obtain ⟨r, hr⟩ := Option.isSome_iff_exists.mp this
    rw [hr]; rfl
  · rw [if_neg hc]
    rw [Bool.not_eq_true] at hc
    rw [mapGet_append_right _ _ _ (mapGet_none_of_not_contains hc)]
    rw [mapGet_none_of_not_contains hc]
    simp [mapGet]

lemma mapGet_ensureKey_ne (m : List (String × Row)) (k k' : String) (h : k' ≠ k) :
    mapGet (ensureKey m k) k' = mapGet m k' := by
  unfold ensureKey
  by_cases hc : mapContains m k = true
  · rw [if_pos hc]
  · rw [if_neg hc]
    cases hg : mapGet m k' with
    | some r => rw [mapGet_append_left _ _ _ (by rw [hg]; rfl), hg]
    | none =>
        rw [mapGet_append_right _ _ _ hg]
        simp [mapGet, Ne.symm h]

lemma mapContains_ensureKey_self (m : List (String × Row)) (k : String) :
    mapContains (ensureKey m k) k = true := by
  rw [mapContains_isSome, mapGet_ensureKey_self]; rfl

lemma mapKeys_ensureKey (m : List (String × Row)) (k : String) :
    mapKeys (ensureKey m k) =
      mapKeys m ++ (if mapContains m k then [] else [k]) := by
  unfold ensureKey
  by_cases hc : mapContains m k = true
  · rw [if_pos hc, if_pos hc]; simp
  · rw [if_neg hc, if_neg hc]
    simp [mapKeys]

lemma mapGet_mapAddAt_self (m : List (String × Row)) (k : String) (i : Option (Fin 12))
    (v : ℚ) :
    mapGet (mapAddAt m k i v) k =
      some (addAtOpt ((mapGet m k).getD zeroRow) i v) := by
  unfold mapAddAt
  rw [mapGet_mapSet_self, mapGet_ensureKey_self]
  rfl

lemma mapGet_mapAddAt_ne (m : List (String × Row)) (k k' : String) (i : Option (Fin 12))
    (v : ℚ) (h : k' ≠ k) : mapGet (mapAddAt m k i v) k' = mapGet m k' := by
  unfold mapAddAt
  rw [mapGet_mapSet_ne _ _ _ _ h, mapGet_ensureKey_ne _ _ _ h]

lemma mapKeys_mapAddAt (m : List (String × Row)) (k : String) (i : Option (Fin 12))
    (v : ℚ) :
    mapKeys (mapAddAt m k i v) =
      mapKeys m ++ (if mapContains m k then [] else [k]) := by
  unfold mapAddAt
  rw [mapKeys_mapSet, if_pos (mapContains_ensureKey_self m k), mapKeys_ensureKey]

lemma addAtOpt_total (r : Row) (i : Option (Fin 12)) (v : ℚ) (h : i.isSome = true) :
    rowTotal (addAtOpt r i v) = rowTotal r + v := by
  cases i with
  | some j => exact rowTotal_addAt r j v
  | none => simp at h

lemma addAt_apply (r : Row) (i : Fin 12) (v : ℚ) (j : Fin 12) :
    addAt r i v j = if j = i then r j + v else r j := rfl

lemma addAtOpt_apply (r : Row) (i : Option (Fin 12)) (v : ℚ) (j : Fin 12) :
    addAtOpt r i v j = if i = some j then r j + v else r j := by
  cases i with
  | none => simp [addAtOpt]
  | some i' =>
      simp only [addAtOpt, addAt, Option.some.injEq]
      by_cases h : j = i'
      · rw [if_pos h, if_pos h.symm]
      · rw [if_neg h, if_neg (fun hh => h hh.symm)]

lemma sumCols_apply (rows : List Row) (j : Fin 12) :
    sumCols rows j = (rows.map (fun r => r j)).sum := by
  unfold sumCols
  have gen : ∀ (l : List Row) (s0 : Row),
      (l.foldl (fun sums r => fun i => sums i + r i) s0) j
        = s0 j + (l.map (fun r => r j)).sum := by
    intro l
    induction l with
    | nil => intro s0; simp
    | cons r rest ih =>
        intro s0
        simp only [List.foldl_cons, List.map_cons, List.sum_cons, ih]
        ring
  exact (gen rows zeroRow).trans (by simp [zeroRow])

/-! ## Date-filter lemmas -/

lemma lexLtB_nil_iff (l : List Char) : lexLtB [] l = true ↔ l ≠ [] := by
  cases l with
  | nil => simp [lexLtB]
  | cons c cs => simp [lexLtB]

lemma yearStartStr_data (year : Nat) :
    (yearStartStr year).data = (toString year).data ++ ['-', '0', '1', '-', '0', '1'] := by
  unfold yearStartStr
  rw [String.data_append]

lemma dateSkipped_eq (year : Nat) (d : String) :
    dateSkipped year d
      = !(strLeB (yearStartStr year) d && strLeB d (yearEndStr year)) := by
  unfold dateSkipped strLeB
  by_cases he : d = ""
  · subst he
    have hys : strLtB "" (yearStartStr year) = true := by
      have hne : (yearStartStr year).data ≠ [] := by
        rw [yearStartStr_data]; simp
      unfold strLtB
      rw [show ("" : String).data = [] from rfl]
      exact (lexLtB_nil_iff _).mpr hne
    simp [hys]
  · rw [show (decide (d = "")) = false from by simp [he]]
    cases h1 : strLtB d (yearStartStr year) <;>
      cases h2 : strLtB (yearEndStr year) d <;> rfl

lemma salesFold_total (year : Nat) (entries : List SellEntry) (r0 : Row)
    (hv : ∀ e ∈ entries, validYMD e.date = true) :
    rowTotal (entries.foldl (salesStep year) r0)
      = rowTotal r0 + ((entries.filter (fun e =>
          strLeB (yearStartStr year) e.date && strLeB e.date (yearEndStr year))).map
          (fun e => parseNumber e.amount)).sum := by
  induction entries generalizing r0 with
  | nil => simp
  | cons e rest ih =>
      have hv' : ∀ x ∈ rest, validYMD x.date = true := fun x hx => hv x (List.mem_cons_of_mem _ hx)
      simp only [List.foldl_cons, List.filter_cons]
      by_cases hk : (strLeB (yearStartStr year) e.date && strLeB e.date (yearEndStr year)) = true
      · rw [if_pos hk]
        have hstep : salesStep year r0 e
            = addAtOpt r0 (monthIdx e.date) (parseNumber e.amount) := by
          unfold salesStep
          rw [dateSkipped_eq, hk]
          rfl
        rw [hstep, ih _ hv']
        rw [addAtOpt_total _ _ _ (monthIdx_isSome_of_valid (hv e (List.mem_cons_self e rest)))]
        simp only [List.map_cons, List.sum_cons]
        ring
      · rw [if_neg hk]
        have hstep : salesStep year r0 e = r0 := by
          unfold salesStep
          rw [dateSkipped_eq]
          rw [Bool.not_eq_true] at hk
          rw [hk]
          rfl
        rw [hstep, ih _ hv']

/-- Claim C1: for every year and every collection of sell entries with
valid zero-padded `YYYY-MM-DD` dates, the sum of the 12 monthly values of
the sales row of `calcPLForYear(year)` equals the sum of
`parseNumber(amount)` over exactly the sell entries whose date lies
lexicographically in the interval `["{year}-01-01", "{year}-12-31"]`. -/
theorem claim_C1 (year : Nat) (st : AppState)
    (hv : ∀ e ∈ st.sellEntries, validYMD e.date = true) :
    rowTotal (calcPLForYear year st).sales
      = ((st.sellEntries.filter (fun e =>
          strLeB (yearStartStr year) e.date && strLeB e.date (yearEndStr year))).map
          (fun e => parseNumber e.amount)).sum := by
  have hs : (calcPLForYear year st).sales = salesRowOf year st.sellEntries := rfl
  rw [hs]
  unfold salesRowOf
  rw [salesFold_total year st.sellEntries zeroRow hv, rowTotal_zero]
  ring

/-- Claim C5, amended: the invoice total is the sum over all items of an
effective quantity times `Number(price)` (0 when non-numeric), where the
quantity factor is `Number(qty)` when `qty` is truthy and defaults to 1
when `qty` is absent or otherwise falsy (so `0` and `""` also default to
1); negative values pass through unchanged; the empty item list totals 0;
the computation is total (never raises). -/
theorem claim_C5 (items : List LineItem) :
    computeInvoiceTotal items
      = (items.map (fun i =>
          (if i.qty.truthy then i.qty.num.getD 0 else 1) * i.price.num.getD 0)).sum
    ∧ computeInvoiceTotal [] = 0 := by
  constructor
  · refine (computeInvoiceTotal_foldl items 0).trans ?_
    simp [itemQty, parseNumber]
  · rfl

/-- Claim C5, counterexample to the claim as stated: on the single item
`{qty: 1, price: -5}` the code returns `-5` (negative prices are kept),
while the claim's formula (negative inputs coerced to 0 before
multiplication, as written in `specInvoiceTotal`) yields `0`. -/
theorem claim_C5_counterexample :
    computeInvoiceTotal [⟨jnum 1, jnum (-5)⟩]
      ≠ specInvoiceTotal [⟨jnum 1, jnum (-5)⟩] := by
  norm_num [computeInvoiceTotal, specInvoiceTotal, jnum, jsOr, parseNumber]

/-- Claim C3: for every input and every month index, the derived rows of
the P&L table satisfy `grossProfit[m] = sales[m] - cogs[m]`,
`operatingExpenseTotal[m] = Σ expenseRows[·][m]`,
`ebit[m] = grossProfit[m] - operatingExpenseTotal[m]`, and
`netEarnings[m] = ebit[m]`. -/
theorem claim_C3 (year : Nat) (st : AppState) (m : Fin 12) :
    (calcPLForYear year st).grossProfit m
        = (calcPLForYear year st).sales m - (calcPLForYear year st).cogs m
    ∧ (calcPLForYear year st).otherExpensesSum m
        = ((calcPLForYear year st).expenseRows.map (fun p => p.2 m)).sum
    ∧ (calcPLForYear year st).ebit m
        = (calcPLForYear year st).grossProfit m - (calcPLForYear year st).otherExpensesSum m
    ∧ (calcPLForYear year st).net m = (calcPLForYear year st).ebit m := by
  refine ⟨rfl, ?_, rfl, rfl⟩
  show sumCols ((calcPLForYear year st).expenseRows.map (fun p => p.2)) m = _
  rw [sumCols_apply, List.map_map]
  rfl

/-! ## Invoice-pass lemmas -/

/-- The in-year test on an invoice, as the claims state it. -/
def invInYear (year : Nat) (inv : Invoice) : Bool :=
  strLeB (yearStartStr year) inv.invoiceDate && strLeB inv.invoiceDate (yearEndStr year)

lemma invoiceStep_fst_product (year : Nat) (acc : Row × List (String × Row))
    (inv : Invoice) (hk : invInYear year inv = true)
    (hp : strToLower inv.type = "product") :
    (invoiceStep year acc inv).1
      = addAtOpt acc.1 (monthIdx inv.invoiceDate) (computeInvoiceTotal inv.items) := by
  unfold invoiceStep
  rw [dateSkipped_eq]
  unfold invInYear at hk
  rw [hk, if_pos hp]
  rfl

lemma invoiceStep_snd_product (year : Nat) (acc : Row × List (String × Row))
    (inv : Invoice) (hk : invInYear year inv = true)
    (hp : strToLower inv.type = "product") :
    (invoiceStep year acc inv).2 = acc.2 := by
  unfold invoiceStep
  rw [dateSkipped_eq]
  unfold invInYear at hk
  rw [hk, if_pos hp]
  rfl

lemma invoiceStep_fst_other (year : Nat) (acc : Row × List (String × Row))
    (inv : Invoice) (hk : invInYear year inv = true)
    (hp : ¬ strToLower inv.type = "product") :
    (invoiceStep year acc inv).1 = acc.1 := by
  unfold invoiceStep
  rw [dateSkipped_eq]
  unfold invInYear at hk
  rw [hk, if_neg hp]
  rfl

lemma invoiceStep_snd_other (year : Nat) (acc : Row × List (String × Row))
    (inv : Invoice) (hk : invInYear year inv = true)
    (hp : ¬ strToLower inv.type = "product") :
    (invoiceStep year acc inv).2
      = mapAddAt acc.2 "Invoice Expenses" (monthIdx inv.invoiceDate)
          (computeInvoiceTotal inv.items) := by
  unfold invoiceStep
  rw [dateSkipped_eq]
  unfold invInYear at hk
  rw [hk, if_neg hp]
  rfl

lemma invoiceStep_skip (year : Nat) (acc : Row × List (String × Row))
    (inv : Invoice) (hk : invInYear year inv = false) :
    invoiceStep year acc inv = acc := by
  unfold invoiceStep
  rw [dateSkipped_eq]
  unfold invInYear at hk
  rw [hk]
  rfl

lemma invoiceFold_cogs_apply (year : Nat) (invs : List Invoice)
    (acc : Row × List (String × Row)) (j : Fin 12) :
    ((invs.foldl (invoiceStep year) acc).1) j
      = acc.1 j + ((invs.filter (fun inv =>
          invInYear year inv && (strToLower inv.type = "product")
            && (monthIdx inv.invoiceDate = some j))).map
          (fun inv => computeInvoiceTotal inv.items)).sum := by
  induction invs generalizing acc with
  | nil => simp
  | cons inv rest ih =>
      simp only [List.foldl_cons, List.filter_cons]
      by_cases hk : invInYear year inv = true
      · by_cases hp : strToLower inv.type = "product"
        · rw [ih, invoiceStep_fst_product year acc inv hk hp]
          by_cases hm : monthIdx inv.invoiceDate = some j
          · rw [if_pos (by simp [hk, hp, hm])]
            simp only [List.map_cons, List.sum_cons]
            rw [addAtOpt_apply, if_pos hm]
            ring
          · rw [if_neg (by simp [hm])]
            rw [addAtOpt_apply, if_neg hm]
        · rw [ih, invoiceStep_fst_other year acc inv hk hp, if_neg (by simp [hp])]
      · rw [Bool.not_eq_true] at hk
        rw [ih, invoiceStep_skip year acc inv hk, if_neg (by simp [hk])]

lemma invoiceFold_ie_apply (year : Nat) (invs : List Invoice)
    (acc : Row × List (String × Row)) (j : Fin 12) :
    ((mapGet (invs.foldl (invoiceStep year) acc).2 "Invoice Expenses").getD zeroRow) j
      = ((mapGet acc.2 "Invoice Expenses").getD zeroRow) j
        + ((invs.filter (fun inv =>
            invInYear year inv && (strToLower inv.type ≠ "product")
              && (monthIdx inv.invoiceDate = some j))).map
            (fun inv => computeInvoiceTotal inv.items)).sum := by
  induction invs generalizing acc with
  | nil => simp
  | cons inv rest ih =>
      simp only [List.foldl_cons, List.filter_cons]
      by_cases hk : invInYear year inv = true
      · by_cases hp : strToLower inv.type = "product"
        · rw [ih, invoiceStep_snd_product year acc inv hk hp, if_neg (by simp [hp])]
        · rw [ih, invoiceStep_snd_other year acc inv hk hp]
          rw [mapGet_mapAddAt_self]
          simp only [Option.getD_some]
          by_cases hm : monthIdx inv.invoiceDate = some j
          · rw [if_pos (by simp [hk, hp, hm])]
            simp only [List.map_cons, List.sum_cons]
            rw [addAtOpt_apply, if_pos hm]
            ring
          · rw [if_neg (by simp [hm])]
            rw [addAtOpt_apply, if_neg hm]
      · rw [Bool.not_eq_true] at hk
        rw [ih, invoiceStep_skip year acc inv hk, if_neg (by simp [hk])]

lemma invoiceFold_cogs_total (year : Nat) (invs : List Invoice)
    (acc : Row × List (String × Row))
    (hv : ∀ inv ∈ invs, validYMD inv.invoiceDate = true) :
    rowTotal ((invs.foldl (invoiceStep year) acc).1)
      = rowTotal acc.1 + ((invs.filter (fun inv =>
          invInYear year inv && (strToLower inv.type = "product"))).map
          (fun inv => computeInvoiceTotal inv.items)).sum := by
  induction invs generalizing acc with
  | nil => simp
  | cons inv rest ih =>
      have hv2 : ∀ x ∈ rest, validYMD x.invoiceDate = true :=
        fun x hx => hv x (List.mem_cons_of_mem _ hx)
      simp only [List.foldl_cons, List.filter_cons]
      by_cases hk : invInYear year inv = true
      · by_cases hp : strToLower inv.type = "product"
        · rw [ih _ hv2, invoiceStep_fst_product year acc inv hk hp,
            if_pos (by simp [hk, hp])]
          simp only [List.map_cons, List.sum_cons]
          rw [addAtOpt_total _ _ _
            (monthIdx_isSome_of_valid (hv inv (List.mem_cons_self inv rest)))]
          ring
        · rw [ih _ hv2, invoiceStep_fst_other year acc inv hk hp, if_neg (by simp [hp])]
      · rw [Bool.not_eq_true] at hk
        rw [ih _ hv2, invoiceStep_skip year acc inv hk, if_neg (by simp [hk])]

/-- Claim C2: for every year and invoice collection with valid zero-padded
`YYYY-MM-DD` invoice dates, an in-year invoice's total lands in the `cogs`
row at its month index exactly when its `type` compares case-insensitively
equal to "product", otherwise in the "Invoice Expenses" row of the invoice
pass; consequently the sum of the 12 cogs values equals the sum of invoice
totals over the product-type invoices of the year. -/
theorem claim_C2 (year : Nat) (st : AppState)
    (hv : ∀ inv ∈ st.invoices, validYMD inv.invoiceDate = true) :
    (∀ j : Fin 12, (calcPLForYear year st).cogs j
      = ((st.invoices.filter (fun inv =>
          invInYear year inv && (strToLower inv.type = "product")
            && (monthIdx inv.invoiceDate = some j))).map
          (fun inv => computeInvoiceTotal inv.items)).sum)
    ∧ (∀ j : Fin 12,
        ((mapGet (invoicePass year st.invoices).2 "Invoice Expenses").getD zeroRow) j
      = ((st.invoices.filter (fun inv =>
          invInYear year inv && (strToLower inv.type ≠ "product")
            && (monthIdx inv.invoiceDate = some j))).map
          (fun inv => computeInvoiceTotal inv.items)).sum)
    ∧ rowTotal (calcPLForYear year st).cogs
      = ((st.invoices.filter (fun inv =>
          invInYear year inv && (strToLower inv.type = "product"))).map
          (fun inv => computeInvoiceTotal inv.items)).sum := by
  have hc : (calcPLForYear year st).cogs = (invoicePass year st.invoices).1 := rfl
  refine ⟨?_, ?_, ?_⟩
  · intro j
    rw [hc]
    unfold invoicePass
    rw [invoiceFold_cogs_apply]
    simp [zeroRow]
  · intro j
    unfold invoicePass
    rw [invoiceFold_ie_apply]
    simp [mapGet, zeroRow]
  · rw [hc]
    unfold invoicePass
    rw [invoiceFold_cogs_total year st.invoices _ hv, rowTotal_zero]
    ring

/-- A one-entry snapshot used to witness claim C1. -/
def wStC1 : AppState :=
  { sellEntries := [{ date := "2024-03-15", type := "fiscal", amount := jnum 100 }],
    invoices := [], expenseTypes := [], otherExpenses := [] }

theorem claim_C1_witness :
    (∀ e ∈ wStC1.sellEntries, validYMD e.date = true)
    ∧ rowTotal (calcPLForYear 2024 wStC1).sales
      = ((wStC1.sellEntries.filter (fun e =>
          strLeB (yearStartStr 2024) e.date && strLeB e.date (yearEndStr 2024))).map
          (fun e => parseNumber e.amount)).sum :=
  ⟨by decide, claim_C1 2024 wStC1 (by decide)⟩

/-- A two-invoice snapshot used to witness claim C2. -/
def wStC2 : AppState :=
  { sellEntries := [],
    invoices :=
      [{ invoiceDate := "2024-01-20", type := "Product",
         items := [{ qty := jnum 2, price := jnum 30 }] },
       { invoiceDate := "2024-02-05", type := "service",
         items := [{ qty := jundef, price := jnum 7 }] }],
    expenseTypes := [], otherExpenses := [] }

theorem claim_C2_witness :
    (∀ inv ∈ wStC2.invoices, validYMD inv.invoiceDate = true)
    ∧ ((∀ j : Fin 12, (calcPLForYear 2024 wStC2).cogs j
        = ((wStC2.invoices.filter (fun inv =>
            invInYear 2024 inv && (strToLower inv.type = "product")
              && (monthIdx inv.invoiceDate = some j))).map
            (fun inv => computeInvoiceTotal inv.items)).sum)
      ∧ (∀ j : Fin 12,
          ((mapGet (invoicePass 2024 wStC2.invoices).2 "Invoice Expenses").getD zeroRow) j
        = ((wStC2.invoices.filter (fun inv =>
            invInYear 2024 inv && (strToLower inv.type ≠ "product")
              && (monthIdx inv.invoiceDate = some j))).map
            (fun inv => computeInvoiceTotal inv.items)).sum)
      ∧ rowTotal (calcPLForYear 2024 wStC2).cogs
        = ((wStC2.invoices.filter (fun inv =>
            invInYear 2024 inv && (strToLower inv.type = "product"))).map
            (fun inv => computeInvoiceTotal inv.items)).sum) :=
  ⟨by decide, claim_C2 2024 wStC2 (by decide)⟩

/-! ## Other-expenses pass lemmas -/

/-- The in-year test on a miscellaneous expense, as the claims state it. -/
def expInYear (year : Nat) (e : OtherExpense) : Bool :=
  strLeB (yearStartStr year) e.date && strLeB e.date (yearEndStr year)

lemma expenseStep_skip (year : Nat) (tb : List (String × String))
    (m : List (String × Row)) (e : OtherExpense) (hk : expInYear year e = false) :
    expenseStep year tb m e = m := by
  unfold expenseStep
  rw [dateSkipped_eq]
  unfold expInYear at hk
  rw [hk]
  rfl

lemma expenseStep_add (year : Nat) (tb : List (String × String))
    (m : List (String × Row)) (e : OtherExpense) (hk : expInYear year e = true) :
    expenseStep year tb m e
      = mapAddAt m (resolveName tb e.typeId) (monthIdx e.date) (parseNumber e.amount) := by
  unfold expenseStep
  rw [dateSkipped_eq]
  unfold expInYear at hk
  rw [hk]
  rfl

lemma expenseFold_get_apply (year : Nat) (tb : List (String × String))
    (l : List OtherExpense) (m0 : List (String × Row)) (k : String) (j : Fin 12) :
    ((mapGet (l.foldl (expenseStep year tb) m0) k).getD zeroRow) j
      = ((mapGet m0 k).getD zeroRow) j
        + ((l.filter (fun e => expInYear year e && (resolveName tb e.typeId = k)
            && (monthIdx e.date = some j))).map (fun e => parseNumber e.amount)).sum := by
  induction l generalizing m0 with
  | nil => simp
  | cons e rest ih =>
      simp only [List.foldl_cons, List.filter_cons]
      by_cases hk : expInYear year e = true
      · rw [expenseStep_add year tb m0 e hk]
        by_cases hn : resolveName tb e.typeId = k
        · rw [ih]
          rw [hn, mapGet_mapAddAt_self]
          simp only [Option.getD_some]
          by_cases hm : monthIdx e.date = some j
          · rw [if_pos (by simp [hk, hn, hm])]
            simp only [List.map_cons, List.sum_cons]
            rw [addAtOpt_apply, if_pos hm]
            ring
          · rw [if_neg (by simp [hm])]
            rw [addAtOpt_apply, if_neg hm]
        · rw [ih, mapGet_mapAddAt_ne _ _ _ _ _ (fun hkk => hn hkk.symm),
            if_neg (by simp [hn])]
      · rw [Bool.not_eq_true] at hk
        rw [expenseStep_skip year tb m0 e hk, ih, if_neg (by simp [hk])]

lemma expenseFold_keys (year : Nat) (tb : List (String × String))
    (l : List OtherExpense) (m0 : List (String × Row)) :
    ∃ ext, mapKeys (l.foldl (expenseStep year tb) m0) = mapKeys m0 ++ ext
      ∧ ∀ x ∈ ext, ∃ e ∈ l, expInYear year e = true ∧ x = resolveName tb e.typeId := by
  induction l generalizing m0 with
  | nil => exact ⟨[], by simp⟩
  | cons e rest ih =>
      simp only [List.foldl_cons]
      by_cases hk : expInYear year e = true
      · rw [expenseStep_add year tb m0 e hk]
        obtain ⟨ext, hkeys, hmem⟩ := ih (mapAddAt m0 (resolveName tb e.typeId)
          (monthIdx e.date) (parseNumber e.amount))
        rw [mapKeys_mapAddAt] at hkeys
        by_cases hc : mapContains m0 (resolveName tb e.typeId) = true
        · refine ⟨ext, ?_, ?_⟩
          · rw [hkeys, if_pos hc]; simp
          · intro x hx
            obtain ⟨e2, he2, hy2, hr2⟩ := hmem x hx
            exact ⟨e2, List.mem_cons_of_mem _ he2, hy2, hr2⟩
        · refine ⟨resolveName tb e.typeId :: ext, ?_, ?_⟩
          · rw [hkeys, if_neg hc]; simp
          · intro x hx
            rcases List.mem_cons.mp hx with hx1 | hx2
            · exact ⟨e, List.mem_cons_self e rest, hk, hx1⟩
            · obtain ⟨e2, he2, hy2, hr2⟩ := hmem x hx2
              exact ⟨e2, List.mem_cons_of_mem _ he2, hy2, hr2⟩
      · rw [Bool.not_eq_true] at hk
        rw [expenseStep_skip year tb m0 e hk]
        obtain ⟨ext, hkeys, hmem⟩ := ih m0
        refine ⟨ext, hkeys, ?_⟩
        intro x hx
        obtain ⟨e2, he2, hy2, hr2⟩ := hmem x hx
        exact ⟨e2, List.mem_cons_of_mem _ he2, hy2, hr2⟩

lemma expenseFold_contains_mono (year : Nat) (tb : List (String × String))
    (l : List OtherExpense) (m0 : List (String × Row)) (k : String)
    (h : mapContains m0 k = true) :
    mapContains (l.foldl (expenseStep year tb) m0) k = true := by
  obtain ⟨ext, hkeys, _⟩ := expenseFold_keys year tb l m0
  rw [mapContains_iff_mem] at h ⊢
  rw [hkeys]
  exact List.mem_append_left _ h

lemma expenseFold_contains_of_mem (year : Nat) (tb : List (String × String))
    (l : List OtherExpense) (m0 : List (String × Row)) (e : OtherExpense)
    (he : e ∈ l) (hk : expInYear year e = true) :
    mapContains (l.foldl (expenseStep year tb) m0) (resolveName tb e.typeId) = true := by
  induction l generalizing m0 with
  | nil => simp at he
  | cons x rest ih =>
      simp only [List.foldl_cons]
      rcases List.mem_cons.mp he with hex | her
      · subst hex
        rw [expenseStep_add year tb m0 e hk]
        apply expenseFold_contains_mono
        rw [mapContains_iff_mem, mapKeys_mapAddAt]
        by_cases hc : mapContains m0 (resolveName tb e.typeId) = true
        · rw [if_pos hc]
          rw [mapContains_iff_mem] at hc
          exact List.mem_append_left _ hc
        · rw [if_neg hc]; simp
      · exact ih _ her

/-- The name an unmatched (or missing) typeId resolves to. -/
lemma resolveName_unmatched (tb : List (String × String)) (id : String)
    (h : mapGet tb id = none) : resolveName tb id = "Other" := by
  unfold resolveName
  rw [h]

/-! ## Seeding lemmas -/

lemma seedFold_get (names : List String) (m0 : List (String × Row)) (k : String) :
    mapGet (names.foldl (fun m n => mapSet m n zeroRow) m0) k
      = if k ∈ names then some zeroRow else mapGet m0 k := by
  induction names generalizing m0 with
  | nil => simp
  | cons n rest ih =>
      simp only [List.foldl_cons, List.mem_cons]
      by_cases hr : k ∈ rest
      · rw [ih, if_pos hr, if_pos (Or.inr hr)]
      · by_cases hn : k = n
        · rw [ih, if_neg hr, if_pos (Or.inl hn)]
          subst hn
          exact mapGet_mapSet_self m0 k zeroRow
        · rw [ih, if_neg hr, if_neg (by tauto)]
          exact mapGet_mapSet_ne m0 n k zeroRow hn

lemma mapGet_none_of_not_mem {α : Type} {m : List (String × α)} {k : String}
    (h : ¬ k ∈ mapKeys m) : mapGet m k = none := by
  apply mapGet_none_of_not_contains
  rw [Bool.eq_false_iff]
  intro hc
  exact h ((mapContains_iff_mem m k).mp hc)

lemma invoiceFold_ie_keys (year : Nat) (invs : List Invoice)
    (acc : Row × List (String × Row)) :
    ∃ ext, mapKeys ((invs.foldl (invoiceStep year) acc).2) = mapKeys acc.2 ++ ext
      ∧ ∀ x ∈ ext, x = "Invoice Expenses" := by
  induction invs generalizing acc with
  | nil => exact ⟨[], by simp⟩
  | cons inv rest ih =>
      simp only [List.foldl_cons]
      by_cases hk : invInYear year inv = true
      · by_cases hp : strToLower inv.type = "product"
        · obtain ⟨ext, hkeys, hmem⟩ := ih (invoiceStep year acc inv)
          refine ⟨ext, ?_, hmem⟩
          rw [hkeys, invoiceStep_snd_product year acc inv hk hp]
        · obtain ⟨ext, hkeys, hmem⟩ := ih (invoiceStep year acc inv)
          by_cases hc : mapContains acc.2 "Invoice Expenses" = true
          · refine ⟨ext, ?_, hmem⟩
            rw [hkeys, invoiceStep_snd_other year acc inv hk hp, mapKeys_mapAddAt,
              if_pos hc]
            simp
          · refine ⟨"Invoice Expenses" :: ext, ?_, ?_⟩
            · rw [hkeys, invoiceStep_snd_other year acc inv hk hp, mapKeys_mapAddAt,
                if_neg hc]
              simp
            · intro x hx
              rcases List.mem_cons.mp hx with h1 | h2
              · exact h1
              · exact hmem x h2
      · rw [Bool.not_eq_true] at hk
        obtain ⟨ext, hkeys, hmem⟩ := ih (invoiceStep year acc inv)
        refine ⟨ext, ?_, hmem⟩
        rw [hkeys, invoiceStep_skip year acc inv hk]

lemma invoicePass_keys (year : Nat) (invs : List Invoice) :
    ∀ x ∈ mapKeys (invoicePass year invs).2, x = "Invoice Expenses" := by
  obtain ⟨ext, hkeys, hmem⟩ := invoiceFold_ie_keys year invs (zeroRow, [])
  intro x hx
  unfold invoicePass at hx
  rw [hkeys] at hx
  simp only [mapKeys, List.map_nil, List.nil_append] at hx
  exact hmem x hx

/-- The value sitting under any key other than "Invoice Expenses" after
seeding is an all-zero row (or the key is absent). -/
lemma seeded_get_zero (year : Nat) (st : AppState) (k : String)
    (hne : k ≠ "Invoice Expenses") :
    ((mapGet (seedExpenseRows (invoicePass year st.invoices).2
        (typeByIdOf st.expenseTypes)) k).getD zeroRow) = zeroRow := by
  unfold seedExpenseRows
  rw [seedFold_get]
  by_cases hm : k ∈ (typeByIdOf st.expenseTypes).map (fun p => p.2)
  · rw [if_pos hm]; rfl
  · rw [if_neg hm]
    rw [mapGet_none_of_not_mem (fun hmem => hne (invoicePass_keys year st.invoices k hmem))]
    rfl

/-- Claim C8: an in-year OtherExpense whose typeId matches no declared
ExpenseType resolves to the literal row label "Other"; the "Other" row of
the returned table carries, at each month index, exactly the sum of the
amounts of the in-year expenses resolving to "Other" (creating the row on
demand — the second conjunct — and never raising, the functions being
total). -/
theorem claim_C8 (year : Nat) (st : AppState) :
    (∀ id2, mapGet (typeByIdOf st.expenseTypes) id2 = none →
      resolveName (typeByIdOf st.expenseTypes) id2 = "Other")
    ∧ (∀ j : Fin 12,
        ((mapGet (calcPLForYear year st).expenseRows "Other").getD zeroRow) j
          = ((st.otherExpenses.filter (fun e => expInYear year e
              && (resolveName (typeByIdOf st.expenseTypes) e.typeId = "Other")
              && (monthIdx e.date = some j))).map (fun e => parseNumber e.amount)).sum)
    ∧ (∀ e ∈ st.otherExpenses, expInYear year e = true →
        mapGet (typeByIdOf st.expenseTypes) e.typeId = none →
        mapContains (calcPLForYear year st).expenseRows "Other" = true) := by
  refine ⟨fun id2 h => resolveName_unmatched _ id2 h, ?_, ?_⟩
  · intro j
    have hrows : (calcPLForYear year st).expenseRows
        = st.otherExpenses.foldl (expenseStep year (typeByIdOf st.expenseTypes))
            (seedExpenseRows (invoicePass year st.invoices).2
              (typeByIdOf st.expenseTypes)) := rfl
    rw [hrows, expenseFold_get_apply]
    rw [seeded_get_zero year st "Other" (by decide)]
    simp [zeroRow]
  · intro e he hy hnone
    have hrows : (calcPLForYear year st).expenseRows
        = st.otherExpenses.foldl (expenseStep year (typeByIdOf st.expenseTypes))
            (seedExpenseRows (invoicePass year st.invoices).2
              (typeByIdOf st.expenseTypes)) := rfl
    rw [hrows]
    have hcon := expenseFold_contains_of_mem year (typeByIdOf st.expenseTypes)
      st.otherExpenses
      (seedExpenseRows (invoicePass year st.invoices).2 (typeByIdOf st.expenseTypes))
      e he hy
    rw [resolveName_unmatched _ _ hnone] at hcon
    exact hcon

/-- A snapshot with one in-year expense whose typeId is unknown, used to
witness claim C8. -/
def wStC8 : AppState :=
  { sellEntries := [], invoices := [],
    expenseTypes := [{ id := "rent", name := "Rent" }],
    otherExpenses := [{ date := "2024-02-10", typeId := "ghost", amount := jnum 50 }] }

/-- The record of `wStC8` whose typeId dangles. -/
def wExpC8 : OtherExpense := { date := "2024-02-10", typeId := "ghost", amount := jnum 50 }

theorem claim_C8_witness :
    (mapGet (typeByIdOf wStC8.expenseTypes) "ghost" = none →
      resolveName (typeByIdOf wStC8.expenseTypes) "ghost" = "Other")
    ∧ wExpC8 ∈ wStC8.otherExpenses
    ∧ expInYear 2024 wExpC8 = true
    ∧ mapGet (typeByIdOf wStC8.expenseTypes) wExpC8.typeId = none
    ∧ mapContains (calcPLForYear 2024 wStC8).expenseRows "Other" = true :=
  ⟨fun h => (claim_C8 2024 wStC8).1 "ghost" h,
   by decide, by decide, by decide,
   (claim_C8 2024 wStC8).2.2 wExpC8 (by decide) (by decide) (by decide)⟩

/-! ## Catalog-order machinery for claim C4 -/

/-- The keys a left-to-right `Map.set` sweep appends to a map whose key
set is `seen`: the fresh names in first-occurrence order. -/
def newKeysFrom : List String → List String → List String
  | _, [] => []
  | seen, n :: rest =>
    if n ∈ seen then newKeysFrom seen rest
    else n :: newKeysFrom (seen ++ [n]) rest

lemma seedFold_keys (names : List String) (m0 : List (String × Row)) :
    mapKeys (names.foldl (fun m n => mapSet m n zeroRow) m0)
      = mapKeys m0 ++ newKeysFrom (mapKeys m0) names := by
  induction names generalizing m0 with
  | nil => simp [newKeysFrom]
  | cons n rest ih =>
      simp only [List.foldl_cons, newKeysFrom]
      by_cases hc : mapContains m0 n = true
      · have hm : n ∈ mapKeys m0 := (mapContains_iff_mem m0 n).mp hc
        rw [if_pos hm, ih, mapKeys_mapSet, if_pos hc]
      · have hm : ¬ n ∈ mapKeys m0 := fun hmem =>
          hc ((mapContains_iff_mem m0 n).mpr hmem)
        rw [if_neg hm, ih, mapKeys_mapSet, if_neg hc]
        simp

lemma mem_newKeysFrom (names : List String) (seen : List String) (k : String) :
    k ∈ newKeysFrom seen names ↔ k ∈ names ∧ ¬ k ∈ seen := by
  induction names generalizing seen with
  | nil => simp [newKeysFrom]
  | cons n rest ih =>
      simp only [newKeysFrom, List.mem_cons]
      by_cases hn : n ∈ seen
      · rw [if_pos hn, ih]
        constructor
        · rintro ⟨h1, h2⟩
          exact ⟨Or.inr h1, h2⟩
        · rintro ⟨h1 | h1, h2⟩
          · exact absurd (h1 ▸ hn) h2
          · exact ⟨h1, h2⟩
      · rw [if_neg hn]
        simp only [List.mem_cons, ih, List.mem_append, List.mem_singleton]
        constructor
        · rintro (h1 | ⟨h2, h3⟩)
          · exact ⟨Or.inl h1, h1 ▸ hn⟩
          · exact ⟨Or.inr h2, fun hk => h3 (Or.inl hk)⟩
        · rintro ⟨h1 | h1, h2⟩
          · exact Or.inl h1
          · by_cases hk : k = n
            · exact Or.inl hk
            · exact Or.inr ⟨h1, by tauto⟩

lemma newKeysFrom_congr (names : List String) (s1 s2 : List String)
    (h : ∀ n ∈ names, (n ∈ s1 ↔ n ∈ s2)) :
    newKeysFrom s1 names = newKeysFrom s2 names := by
  induction names generalizing s1 s2 with
  | nil => simp [newKeysFrom]
  | cons n rest ih =>
      simp only [newKeysFrom]
      have hn := h n (List.mem_cons_self n rest)
      by_cases h1 : n ∈ s1
      · rw [if_pos h1, if_pos (hn.mp h1)]
        exact ih s1 s2 (fun x hx => h x (List.mem_cons_of_mem _ hx))
      · rw [if_neg h1, if_neg (fun h2 => h1 (hn.mpr h2))]
        rw [ih (s1 ++ [n]) (s2 ++ [n])]
        intro x hx
        simp only [List.mem_append, List.mem_singleton]
        rw [h x (List.mem_cons_of_mem _ hx)]

lemma mapSet_append_of_not_contains {α : Type} (m : List (String × α)) (k : String)
    (v : α) (h : mapContains m k = false) : mapSet m k v = m ++ [(k, v)] := by
  induction m with
  | nil => simp [mapSet]
  | cons p rest ih =>
      simp only [mapContains, Bool.or_eq_false_iff, decide_eq_false_iff_not] at h
      simp only [mapSet, List.cons_append]
      rw [if_neg h.1, ih h.2]

lemma typeFold_eq (types : List ExpenseType) (m0 : List (String × String))
    (hdisj : ∀ t ∈ types, ¬ t.id ∈ mapKeys m0)
    (hids : (types.map (fun t => t.id)).Nodup) :
    types.foldl (fun m t => mapSet m t.id t.name) m0
      = m0 ++ types.map (fun t => (t.id, t.name)) := by
  induction types generalizing m0 with
  | nil => simp
  | cons t rest ih =>
      simp only [List.foldl_cons, List.map_cons]
      have hc : mapContains m0 t.id = false := by
        rw [Bool.eq_false_iff]
        intro hcc
        exact hdisj t (List.mem_cons_self t rest) ((mapContains_iff_mem m0 t.id).mp hcc)
      rw [mapSet_append_of_not_contains m0 t.id t.name hc]
      simp only [List.map_cons, List.nodup_cons] at hids
      rw [ih (m0 ++ [(t.id, t.name)])]
      · simp
      · intro x hx
        unfold mapKeys
        rw [List.map_append, List.mem_append]
        rintro (h1 | h2)
        · exact hdisj x (List.mem_cons_of_mem _ hx) h1
        · simp only [List.map_cons, List.map_nil, List.mem_singleton] at h2
          exact hids.1 (h2 ▸ List.mem_map_of_mem (fun t => t.id) hx)
      · exact hids.2

lemma typeByIdOf_eq (types : List ExpenseType)
    (hids : (types.map (fun t => t.id)).Nodup) :
    typeByIdOf types = types.map (fun t => (t.id, t.name)) := by
  unfold typeByIdOf
  rw [typeFold_eq types [] (by simp [mapKeys]) hids]
  simp

lemma mapGet_mem {α : Type} {m : List (String × α)} {k : String} {v : α}
    (h : mapGet m k = some v) : (k, v) ∈ m := by
  induction m with
  | nil => simp [mapGet] at h
  | cons p rest ih =>
      simp only [mapGet] at h
      by_cases hp : p.1 = k
      · rw [if_pos hp] at h
        simp only [Option.some.injEq] at h
        have hpv : (k, v) = p := by rw [← hp, ← h]
        rw [hpv]
        exact List.mem_cons_self p rest
      · rw [if_neg hp] at h
        exact List.mem_cons_of_mem _ (ih h)

lemma resolveName_cases (tb : List (String × String)) (id2 : String) :
    resolveName tb id2 = "Other" ∨ ∃ p ∈ tb, resolveName tb id2 = p.2 := by
  cases hg : mapGet tb id2 with
  | none => exact Or.inl (resolveName_unmatched tb id2 hg)
  | some n =>
      by_cases hn : n = ""
      · left
        unfold resolveName
        rw [hg]
        simp [hn]
      · right
        refine ⟨(id2, n), mapGet_mem hg, ?_⟩
        unfold resolveName
        rw [hg]
        simp [hn]

lemma expenseFold_get_eq (year : Nat) (tb : List (String × String))
    (l : List OtherExpense) (m0 : List (String × Row)) (k : String)
    (h : ∀ e ∈ l, expInYear year e = true → resolveName tb e.typeId ≠ k) :
    mapGet (l.foldl (expenseStep year tb) m0) k = mapGet m0 k := by
  induction l generalizing m0 with
  | nil => simp
  | cons e rest ih =>
      simp only [List.foldl_cons]
      have h2 : ∀ x ∈ rest, expInYear year x = true → resolveName tb x.typeId ≠ k :=
        fun x hx => h x (List.mem_cons_of_mem _ hx)
      by_cases hk : expInYear year e = true
      · rw [expenseStep_add year tb m0 e hk, ih _ h2,
          mapGet_mapAddAt_ne _ _ _ _ _
            (fun hkk => h e (List.mem_cons_self e rest) hk hkk.symm)]
      · rw [Bool.not_eq_true] at hk
        rw [expenseStep_skip year tb m0 e hk, ih _ h2]

lemma invoiceFold_contains_ie (year : Nat) (invs : List Invoice)
    (acc : Row × List (String × Row)) :
    mapContains ((invs.foldl (invoiceStep year) acc).2) "Invoice Expenses" = true
      ↔ mapContains acc.2 "Invoice Expenses" = true
        ∨ ∃ inv ∈ invs, invInYear year inv = true
            ∧ ¬ strToLower inv.type = "product" := by
  induction invs generalizing acc with
  | nil => simp
  | cons inv rest ih =>
      simp only [List.foldl_cons, List.mem_cons]
      by_cases hk : invInYear year inv = true
      · by_cases hp : strToLower inv.type = "product"
        · rw [ih]
          rw [invoiceStep_snd_product year acc inv hk hp]
          constructor
          · rintro (h1 | ⟨x, hx, hy2, hp2⟩)
            · exact Or.inl h1
            · exact Or.inr ⟨x, Or.inr hx, hy2, hp2⟩
          · rintro (h1 | ⟨x, hx1 | hx2, hy2, hp2⟩)
            · exact Or.inl h1
            · rw [hx1] at hp2
              exact absurd hp hp2
            · exact Or.inr ⟨x, hx2, hy2, hp2⟩
        · rw [ih]
          rw [invoiceStep_snd_other year acc inv hk hp]
          have hcont : mapContains (mapAddAt acc.2 "Invoice Expenses"
              (monthIdx inv.invoiceDate) (computeInvoiceTotal inv.items))
              "Invoice Expenses" = true := by
            rw [mapContains_iff_mem, mapKeys_mapAddAt]
            by_cases hc : mapContains acc.2 "Invoice Expenses" = true
            · rw [if_pos hc]
              rw [mapContains_iff_mem] at hc
              exact List.mem_append_left _ hc
            · rw [if_neg hc]; simp
          constructor
          · intro _
            exact Or.inr ⟨inv, Or.inl rfl, hk, hp⟩
          · intro _
            exact Or.inl hcont
      · rw [Bool.not_eq_true] at hk
        rw [invoiceStep_skip year acc inv hk, ih]
        constructor
        · rintro (h1 | ⟨x, hx, hy2, hp2⟩)
          · exact Or.inl h1
          · exact Or.inr ⟨x, Or.inr hx, hy2, hp2⟩
        · rintro (h1 | ⟨x, hx1 | hx2, hy2, hp2⟩)
          · exact Or.inl h1
          · rw [hx1] at hy2
            rw [hk] at hy2
            exact absurd hy2 (by simp)
          · exact Or.inr ⟨x, hx2, hy2, hp2⟩

/-- Claim C4, amended with two hypotheses the stringly-typed map made
necessary (distinct catalog ids; no catalog entry named "Invoice
Expenses"): every declared ExpenseType name owns a row (all-zero when no
in-year expense resolves to it); the deduplicated catalog names appear in
catalog order as a sublist of the row keys; the "Invoice Expenses" row
exists iff some in-year invoice is non-product-typed, and precedes every
other row when present. -/
theorem claim_C4 (year : Nat) (st : AppState)
    (hids : (st.expenseTypes.map (fun t => t.id)).Nodup)
    (hname : ∀ t ∈ st.expenseTypes, t.name ≠ "Invoice Expenses") :
    (∀ t ∈ st.expenseTypes,
      mapContains (calcPLForYear year st).expenseRows t.name = true)
    ∧ (∀ t ∈ st.expenseTypes,
        (∀ e ∈ st.otherExpenses, expInYear year e = true →
          resolveName (typeByIdOf st.expenseTypes) e.typeId ≠ t.name) →
        mapGet (calcPLForYear year st).expenseRows t.name = some zeroRow)
    ∧ List.Sublist (newKeysFrom [] (st.expenseTypes.map (fun t => t.name)))
        (mapKeys (calcPLForYear year st).expenseRows)
    ∧ (mapContains (calcPLForYear year st).expenseRows "Invoice Expenses" = true
        ↔ ∃ inv ∈ st.invoices, invInYear year inv = true
            ∧ ¬ strToLower inv.type = "product")
    ∧ (mapContains (calcPLForYear year st).expenseRows "Invoice Expenses" = true →
        (mapKeys (calcPLForYear year st).expenseRows).head? = some "Invoice Expenses") := by
  have htb : typeByIdOf st.expenseTypes = st.expenseTypes.map (fun t => (t.id, t.name)) :=
    typeByIdOf_eq st.expenseTypes hids
  have hvals : (typeByIdOf st.expenseTypes).map (fun p => p.2)
      = st.expenseTypes.map (fun t => t.name) := by
    rw [htb, List.map_map]
    rfl
  have hrows : (calcPLForYear year st).expenseRows
      = st.otherExpenses.foldl (expenseStep year (typeByIdOf st.expenseTypes))
          (seedExpenseRows (invoicePass year st.invoices).2
            (typeByIdOf st.expenseTypes)) := rfl
  have hkeys_seeded : mapKeys (seedExpenseRows (invoicePass year st.invoices).2
        (typeByIdOf st.expenseTypes))
      = mapKeys (invoicePass year st.invoices).2
        ++ newKeysFrom (mapKeys (invoicePass year st.invoices).2)
            (st.expenseTypes.map (fun t => t.name)) := by
    unfold seedExpenseRows
    rw [hvals]
    exact seedFold_keys _ _
  have hie_all := invoicePass_keys year st.invoices
  have hname_mem : ∀ n ∈ st.expenseTypes.map (fun t => t.name), n ≠ "Invoice Expenses" := by
    intro n hn
    obtain ⟨t, ht, hteq⟩ := List.mem_map.mp hn
    rw [← hteq]
    exact hname t ht
  obtain ⟨ext3, hkeys_final, hext3⟩ := expenseFold_keys year (typeByIdOf st.expenseTypes)
    st.otherExpenses (seedExpenseRows (invoicePass year st.invoices).2
      (typeByIdOf st.expenseTypes))
  have hext3_ne : ∀ x ∈ ext3, x ≠ "Invoice Expenses" := by
    intro x hx
    obtain ⟨e, he, hy2, hr⟩ := hext3 x hx
    rcases resolveName_cases (typeByIdOf st.expenseTypes) e.typeId with h1 | ⟨p, hp, h2⟩
    · rw [hr, h1]; decide
    · rw [hr, h2]
      have : p.2 ∈ (typeByIdOf st.expenseTypes).map (fun p => p.2) :=
        List.mem_map_of_mem _ hp
      rw [hvals] at this
      exact hname_mem p.2 this
  refine ⟨?_, ?_, ?_, ?_, ?_⟩
  · intro t ht
    rw [hrows, mapContains_iff_mem, hkeys_final, hkeys_seeded]
    have hmem : t.name ∈ newKeysFrom (mapKeys (invoicePass year st.invoices).2)
        (st.expenseTypes.map (fun t => t.name)) := by
      rw [mem_newKeysFrom]
      refine ⟨List.mem_map_of_mem _ ht, ?_⟩
      intro hie
      exact hname t ht (hie_all t.name hie)
    rw [List.append_assoc]
    exact List.mem_append_right _ (List.mem_append_left _ hmem)
  · intro t ht hnone
    rw [hrows, expenseFold_get_eq year _ _ _ _ hnone]
    unfold seedExpenseRows
    rw [seedFold_get, hvals, if_pos (List.mem_map_of_mem _ ht)]
  · rw [hrows, hkeys_final, hkeys_seeded]
    have hnk : newKeysFrom (mapKeys (invoicePass year st.invoices).2)
        (st.expenseTypes.map (fun t => t.name))
      = newKeysFrom [] (st.expenseTypes.map (fun t => t.name)) := by
      apply newKeysFrom_congr
      intro n hn
      constructor
      · intro hmem
        exact absurd (hie_all n hmem) (hname_mem n hn)
      · intro hmem
        simp at hmem
    rw [hnk, List.append_assoc]
    exact ((List.sublist_append_left _ ext3).trans
      (List.sublist_append_right _ _))
  · rw [hrows, mapContains_iff_mem, hkeys_final, hkeys_seeded]
    have hsplit : ∀ z : Prop,
        ("Invoice Expenses" ∈ mapKeys (invoicePass year st.invoices).2 ↔ z) →
        ("Invoice Expenses" ∈ (mapKeys (invoicePass year st.invoices).2
          ++ newKeysFrom (mapKeys (invoicePass year st.invoices).2)
              (st.expenseTypes.map (fun t => t.name))) ++ ext3 ↔ z) := by
      intro z hz
      rw [← hz]
      simp only [List.mem_append]
      constructor
      · rintro ((h1 | h2) | h3)
        · exact h1
        · rw [mem_newKeysFrom] at h2
          exact absurd rfl (hname_mem _ h2.1)
        · exact absurd rfl (hext3_ne _ h3)
      · intro h1
        exact Or.inl (Or.inl h1)
    apply hsplit
    rw [← mapContains_iff_mem]
    unfold invoicePass
    rw [invoiceFold_contains_ie]
    simp [mapContains]
  · intro hcont
    rw [hrows, mapContains_iff_mem, hkeys_final, hkeys_seeded] at hcont
    simp only [List.mem_append] at hcont
    have hie_mem : "Invoice Expenses" ∈ mapKeys (invoicePass year st.invoices).2 := by
      rcases hcont with (h1 | h2) | h3
      · exact h1
      · rw [mem_newKeysFrom] at h2
        exact absurd rfl (hname_mem _ h2.1)
      · exact absurd rfl (hext3_ne _ h3)
    rw [hrows, hkeys_final, hkeys_seeded]
    cases hk : mapKeys (invoicePass year st.invoices).2 with
    | nil => rw [hk] at hie_mem; simp at hie_mem
    | cons h t =>
        have hh : h = "Invoice Expenses" := hie_all h (by rw [hk]; exact List.mem_cons_self h t)
        rw [List.cons_append, List.cons_append, hh]
        rfl

/-- The catalog that falsifies claim C4 as stated: one ExpenseType happens
to be named "Invoice Expenses". -/
def cStC4 : AppState :=
  { sellEntries := [], invoices := [],
    expenseTypes := [{ id := "x", name := "Invoice Expenses" }],
    otherExpenses := [] }

/-- Claim C4, counterexample to the claim as stated: with no invoices at
all, the returned `expenseRows` still contains an "Invoice Expenses" row
(the pre-seeded catalog row), so the claimed iff fails. -/
theorem claim_C4_counterexample :
    ¬ (mapContains (calcPLForYear 2024 cStC4).expenseRows "Invoice Expenses" = true
        ↔ ∃ inv ∈ cStC4.invoices, invInYear 2024 inv = true
            ∧ ¬ strToLower inv.type = "product") := by
  decide

/-- A snapshot with a well-behaved catalog, used to witness claim C4. -/
def wStC4 : AppState :=
  { sellEntries := [],
    invoices := [{ invoiceDate := "2024-04-09", type := "service",
                   items := [{ qty := jnum 1, price := jnum 20 }] }],
    expenseTypes := [{ id := "rent", name := "Rent" }, { id := "wage", name := "Wage" }],
    otherExpenses := [] }

theorem claim_C4_witness :
    (wStC4.expenseTypes.map (fun t => t.id)).Nodup
    ∧ (∀ t ∈ wStC4.expenseTypes, t.name ≠ "Invoice Expenses")
    ∧ ((∀ t ∈ wStC4.expenseTypes,
        mapContains (calcPLForYear 2024 wStC4).expenseRows t.name = true)
      ∧ (∀ t ∈ wStC4.expenseTypes,
          (∀ e ∈ wStC4.otherExpenses, expInYear 2024 e = true →
            resolveName (typeByIdOf wStC4.expenseTypes) e.typeId ≠ t.name) →
          mapGet (calcPLForYear 2024 wStC4).expenseRows t.name = some zeroRow)
      ∧ List.Sublist (newKeysFrom [] (wStC4.expenseTypes.map (fun t => t.name)))
          (mapKeys (calcPLForYear 2024 wStC4).expenseRows)
      ∧ (mapContains (calcPLForYear 2024 wStC4).expenseRows "Invoice Expenses" = true
          ↔ ∃ inv ∈ wStC4.invoices, invInYear 2024 inv = true
              ∧ ¬ strToLower inv.type = "product")
      ∧ (mapContains (calcPLForYear 2024 wStC4).expenseRows "Invoice Expenses" = true →
          (mapKeys (calcPLForYear 2024 wStC4).expenseRows).head?
            = some "Invoice Expenses")) :=
  ⟨by decide, by decide, claim_C4 2024 wStC4 (by decide) (by decide)⟩

/-! ## Claim C9: the drill-down query -/

/-- The snapshot on which the drill-down contract fails: an in-year
expense with a dangling typeId. -/
def cStC9 : AppState :=
  { sellEntries := [], invoices := [],
    expenseTypes := [{ id := "rent", name := "Rent" }],
    otherExpenses := [{ date := "2024-02-10", typeId := "ghost", amount := jnum 50 }] }

/-- Claim C9, evaluated at the failing input: the expense with the unknown
typeId "ghost" contributed 50 to the "Other" row of February 2024, yet the
drill-down for `(2024, "02", "Other")` matches `typeId === ''` and returns
no record at all — the query does not reproduce the cell's contributors. -/
theorem claim_C9_code_bug :
    ((mapGet (calcPLForYear 2024 cStC9).expenseRows "Other").getD zeroRow)
        ⟨1, by norm_num⟩ = 50
    ∧ plDetailsOther cStC9 (toString 2024 ++ "-" ++ "02") "Other" = [] := by
  constructor
  · have hrows : (calcPLForYear 2024 cStC9).expenseRows
        = cStC9.otherExpenses.foldl (expenseStep 2024 (typeByIdOf cStC9.expenseTypes))
            (seedExpenseRows (invoicePass 2024 cStC9.invoices).2
              (typeByIdOf cStC9.expenseTypes)) := rfl
    rw [hrows, expenseFold_get_apply, seeded_get_zero 2024 cStC9 "Other" (by decide)]
    show zeroRow _ + _ = 50
    rw [show cStC9.otherExpenses
        = [{ date := "2024-02-10", typeId := "ghost", amount := jnum 50 }] from rfl]
    rw [List.filter_cons, if_pos (by decide), List.filter_nil]
    norm_num [zeroRow, parseNumber, jnum]
  · decide

/-! ## Claim C10: empty dates are dropped when a lower bound is set -/

lemma strData_ne {s : String} (h : s ≠ "") : s.data ≠ [] := by
  intro hd
  apply h
  cases s with
  | mk data => simp at hd; rw [hd]

lemma strLtB_empty_lt {s : String} (h : s ≠ "") : strLtB "" s = true := by
  unfold strLtB
  rw [show ("" : String).data = [] from rfl]
  exact (lexLtB_nil_iff _).mpr (strData_ne h)

lemma rangeSkipped_empty_date (fromDate toDate : String) (hf : fromDate ≠ "") :
    rangeSkipped fromDate toDate "" = true := by
  unfold rangeSkipped
  rw [strLtB_empty_lt hf]
  simp [hf]

lemma foldl_filter_invariant {α β : Type} (f : β → α → β) (p : α → Bool)
    (l : List α) (init : β) (h : ∀ b a, p a = false → f b a = b) :
    (l.filter p).foldl f init = l.foldl f init := by
  induction l generalizing init with
  | nil => rfl
  | cons x rest ih =>
      simp only [List.filter_cons]
      cases hp : p x with
      | true => simp only [if_pos rfl, List.foldl_cons]; exact ih (f init x)
      | false =>
          simp only [Bool.false_eq_true, if_false, List.foldl_cons]
          rw [h init x hp]
          exact ih init

/-- Claim C10: with a non-empty `fromDate` bound, the month aggregators
exclude every record whose date string is empty from the output entirely
(empty compares lexicographically below any non-empty bound): dropping
such records beforehand leaves the outputs unchanged, so they appear in no
bucket, including the "Unknown" bucket. -/
theorem claim_C10 (entries : List SellEntry) (invoices : List Invoice)
    (expenses : List OtherExpense) (fromDate toDate : String) (hf : fromDate ≠ "") :
    aggregateByMonthSell (entries.filter (fun e => e.date ≠ "")) fromDate toDate
      = aggregateByMonthSell entries fromDate toDate
    ∧ aggregateByMonthExpenses (invoices.filter (fun i => i.invoiceDate ≠ ""))
        (expenses.filter (fun e => e.date ≠ "")) fromDate toDate
      = aggregateByMonthExpenses invoices expenses fromDate toDate := by
  constructor
  · unfold aggregateByMonthSell
    rw [foldl_filter_invariant]
    intro acc e hpe
    simp only [decide_eq_false_iff_not, not_not] at hpe
    unfold sellAggStep
    rw [hpe, rangeSkipped_empty_date fromDate toDate hf]
    rfl
  · unfold aggregateByMonthExpenses
    rw [foldl_filter_invariant, foldl_filter_invariant]
    · intro acc e hpe
      simp only [decide_eq_false_iff_not, not_not] at hpe
      unfold expAggStep
      rw [hpe, rangeSkipped_empty_date fromDate toDate hf]
      rfl
    · intro acc e hpe
      simp only [decide_eq_false_iff_not, not_not] at hpe
      unfold buyAggStep
      rw [hpe, rangeSkipped_empty_date fromDate toDate hf]
      rfl

theorem claim_C10_witness :
    ("2024-01-01" : String) ≠ ""
    ∧ (aggregateByMonthSell
        ([{ date := "", type := "fiscal", amount := jnum 9 }].filter
          (fun e => e.date ≠ "")) "2024-01-01" ""
      = aggregateByMonthSell [{ date := "", type := "fiscal", amount := jnum 9 }]
          "2024-01-01" ""
    ∧ aggregateByMonthExpenses
        (([] : List Invoice).filter (fun i => i.invoiceDate ≠ ""))
        (([{ date := "", typeId := "rent", amount := jnum 4 }]).filter
          (fun e => e.date ≠ "")) "2024-01-01" ""
      = aggregateByMonthExpenses [] [{ date := "", typeId := "rent", amount := jnum 4 }]
          "2024-01-01" "") :=
  ⟨by decide,
   claim_C10 [{ date := "", type := "fiscal", amount := jnum 9 }] []
     [{ date := "", typeId := "rent", amount := jnum 4 }] "2024-01-01" "" (by decide)⟩

/-! ## Code-unit order: transitivity and trichotomy -/

lemma lexLtB_trichotomy : ∀ (a b : List Char),
    lexLtB a b = true ∨ lexLtB b a = true ∨ a = b := by
  intro a
  induction a with
  | nil =>
      intro b
      cases b with
      | nil => simp [lexLtB]
      | cons y ys => simp [lexLtB]
  | cons x xs ih =>
      intro b
      cases b with
      | nil => simp [lexLtB]
      | cons y ys =>
          unfold lexLtB
          rcases Nat.lt_trichotomy x.toNat y.toNat with h1 | h1 | h1
          · left; rw [if_pos h1]
          · rcases ih ys with h2 | h2 | h2
            · left
              rw [if_neg (by omega), if_neg (by omega)]
              exact h2
            · right; left
              rw [if_neg (by omega), if_neg (by omega)]
              exact h2
            · right; right
              rw [h2, Char.eq_of_val_eq (UInt32.ext h1)]
          · right; left; rw [if_pos h1]

lemma lexLtB_trans : ∀ {a b c : List Char},
    lexLtB a b = true → lexLtB b c = true → lexLtB a c = true := by
  intro a
  induction a with
  | nil =>
      intro b c hab hbc
      cases c with
      | nil =>
          cases b with
          | nil => simp [lexLtB] at hab
          | cons y ys => simp [lexLtB] at hbc
      | cons z zs => simp [lexLtB]
  | cons x xs ih =>
      intro b c hab hbc
      cases b with
      | nil => simp [lexLtB] at hab
      | cons y ys =>
          cases c with
          | nil => simp [lexLtB] at hbc
          | cons z zs =>
              unfold lexLtB at hab hbc ⊢
              by_cases h1 : x.toNat < y.toNat
              · by_cases h2 : y.toNat < z.toNat
                · rw [if_pos (by omega)]
                · rw [if_neg h2] at hbc
                  by_cases h3 : z.toNat < y.toNat
                  · rw [if_pos h3] at hbc
                    exact absurd hbc (by simp)
                  · rw [if_pos (by omega)]
              · rw [if_neg h1] at hab
                by_cases h1b : y.toNat < x.toNat
                · rw [if_pos h1b] at hab
                  exact absurd hab (by simp)
                · rw [if_neg h1b] at hab
                  by_cases h2 : y.toNat < z.toNat
                  · rw [if_pos (by omega)]
                  · rw [if_neg h2] at hbc
                    by_cases h3 : z.toNat < y.toNat
                    · rw [if_pos h3] at hbc
                      exact absurd hbc (by simp)
                    · rw [if_neg h3] at hbc
                      rw [if_neg (by omega), if_neg (by omega)]
                      exact ih hab hbc

lemma strLeB_trans {a b c : String} (h1 : strLeB a b = true) (h2 : strLeB b c = true) :
    strLeB a c = true := by
  unfold strLeB at h1 h2 ⊢
  simp only [Bool.not_eq_true'] at h1 h2 ⊢
  by_cases hca : strLtB c a = true
  · exfalso
    rcases lexLtB_trichotomy a.data b.data with hh | hh | hh
    · have : lexLtB c.data b.data = true := lexLtB_trans hca hh
      rw [show lexLtB c.data b.data = strLtB c b from rfl, h2] at this
      exact absurd this (by simp)
    · rw [show lexLtB b.data a.data = strLtB b a from rfl, h1] at hh
      exact absurd hh (by simp)
    · have hba : b = a := congrArg String.mk hh.symm
      rw [hba] at h2
      rw [h2] at hca
      exact absurd hca (by simp)
  · simpa using hca

/-! ## Insertion sort lemmas -/

lemma insertStr_perm (x : String) (l : List String) :
    List.Perm (insertStr x l) (x :: l) := by
  induction l with
  | nil => simp [insertStr]
  | cons y ys ih =>
      unfold insertStr
      by_cases h : strLeB x y = true
      · rw [if_pos h]
      · rw [if_neg h]
        exact (List.Perm.cons y ih).trans (List.Perm.swap x y ys)

lemma sortStrs_perm (l : List String) : List.Perm (sortStrs l) l := by
  induction l with
  | nil => simp [sortStrs]
  | cons x xs ih =>
      unfold sortStrs
      simp only [List.foldr_cons]
      exact (insertStr_perm x _).trans (List.Perm.cons x ih)

lemma mem_sortStrs (l : List String) (x : String) : x ∈ sortStrs l ↔ x ∈ l :=
  (sortStrs_perm l).mem_iff

lemma sortStrs_nodup {l : List String} (h : l.Nodup) : (sortStrs l).Nodup :=
  ((sortStrs_perm l).nodup_iff).mpr h

lemma insertStr_sorted (x : String) (l : List String)
    (h : l.Pairwise (fun a b => strLeB a b = true)) :
    (insertStr x l).Pairwise (fun a b => strLeB a b = true) := by
  induction l with
  | nil => simp [insertStr]
  | cons y ys ih =>
      unfold insertStr
      rcases List.pairwise_cons.mp h with ⟨hy, hys⟩
      by_cases hxy : strLeB x y = true
      · rw [if_pos hxy]
        refine List.pairwise_cons.mpr ⟨?_, h⟩
        intro z hz
        rcases List.mem_cons.mp hz with h1 | h2
        · rw [h1]; exact hxy
        · exact strLeB_trans hxy (hy z h2)
      · rw [if_neg hxy]
        refine List.pairwise_cons.mpr ⟨?_, ih hys⟩
        intro z hz
        rw [(insertStr_perm x ys).mem_iff] at hz
        rcases List.mem_cons.mp hz with h1 | h2
        · rw [h1]
          rcases strLeB_total y x with hh | hh
          · exact hh
          · exact absurd hh hxy
        · exact hy z h2

lemma sortStrs_sorted (l : List String) :
    (sortStrs l).Pairwise (fun a b => strLeB a b = true) := by
  induction l with
  | nil => simp [sortStrs]
  | cons x xs ih =>
      unfold sortStrs
      simp only [List.foldr_cons]
      exact insertStr_sorted x _ ih

/-! ## JavaScript Set and indexOf lemmas -/

lemma mem_setAdd (seen : List String) (x y : String) :
    y ∈ setAdd seen x ↔ y ∈ seen ∨ y = x := by
  unfold setAdd
  by_cases h : seen.contains x
  · rw [if_pos h]
    constructor
    · exact Or.inl
    · rintro (h1 | h1)
      · exact h1
      · rw [h1]; exact List.mem_of_elem_eq_true h
  · rw [if_neg h]
    simp

lemma nodup_setAdd (seen : List String) (x : String) (h : seen.Nodup) :
    (setAdd seen x).Nodup := by
  unfold setAdd
  by_cases hc : seen.contains x
  · rw [if_pos hc]; exact h
  · rw [if_neg hc]
    rw [List.nodup_append]
    refine ⟨h, List.nodup_singleton x, ?_⟩
    intro a ha hax
    simp only [List.mem_singleton] at hax
    rw [hax] at ha
    exact hc (List.elem_eq_true_of_mem ha)

lemma mem_setFold (l : List String) (acc : List String) (y : String) :
    y ∈ l.foldl setAdd acc ↔ y ∈ acc ∨ y ∈ l := by
  induction l generalizing acc with
  | nil => simp
  | cons x xs ih =>
      simp only [List.foldl_cons, ih, mem_setAdd, List.mem_cons]
      tauto

lemma nodup_setFold (l : List String) (acc : List String) (h : acc.Nodup) :
    (l.foldl setAdd acc).Nodup := by
  induction l generalizing acc with
  | nil => exact h
  | cons x xs ih => exact ih _ (nodup_setAdd acc x h)

lemma jsIndexOf_none_iff (l : List String) (x : String) :
    jsIndexOf l x = none ↔ ¬ x ∈ l := by
  induction l with
  | nil => simp [jsIndexOf]
  | cons y ys ih =>
      unfold jsIndexOf
      by_cases h : y = x
      · rw [if_pos h]
        simp [h]
      · rw [if_neg h]
        constructor
        · intro h1 hmem
          cases hj : jsIndexOf ys x with
          | none =>
              rcases List.mem_cons.mp hmem with h2 | h2
              · exact h h2.symm
              · exact (ih.mp hj) h2
          | some j => rw [hj] at h1; simp at h1
        · intro h1
          have hys : ¬ x ∈ ys := fun h2 => h1 (List.mem_cons_of_mem _ h2)
          rw [ih.mpr hys]
          rfl

lemma jsIndexOf_get (l : List String) (x : String) (i : Nat)
    (h : jsIndexOf l x = some i) : ∃ hi : i < l.length, l.get ⟨i, hi⟩ = x := by
  induction l generalizing i with
  | nil => simp [jsIndexOf] at h
  | cons y ys ih =>
      unfold jsIndexOf at h
      by_cases hy : y = x
      · rw [if_pos hy] at h
        simp only [Option.some.injEq] at h
        rw [← h]
        exact ⟨by simp, hy⟩
      · rw [if_neg hy] at h
        cases hj : jsIndexOf ys x with
        | none => rw [hj] at h; simp at h
        | some j =>
            rw [hj] at h
            rw [show (some j).map (fun i => i + 1) = some (j + 1) from rfl] at h
            simp only [Option.some.injEq] at h
            obtain ⟨hjl, hget⟩ := ih j hj
            rw [← h]
            exact ⟨by simpa using hjl, by simpa using hget⟩

lemma jsIndexOf_of_get (l : List String) (hnd : l.Nodup) (j : Nat) (hj : j < l.length) :
    jsIndexOf l (l.get ⟨j, hj⟩) = some j := by
  induction l generalizing j with
  | nil => simp at hj
  | cons y ys ih =>
      rcases List.nodup_cons.mp hnd with ⟨hy, hys⟩
      cases j with
      | zero =>
          show jsIndexOf (y :: ys) y = some 0
          unfold jsIndexOf
          rw [if_pos rfl]
      | succ j2 =>
          have hj2 : j2 < ys.length := by simpa using hj
          have hget : (y :: ys).get ⟨j2 + 1, hj⟩ = ys.get ⟨j2, hj2⟩ := rfl
          rw [hget]
          unfold jsIndexOf
          rw [if_neg (fun hcontra => hy (by
            rw [hcontra]
            exact List.get_mem ys j2 hj2)), ih hys j2 hj2]
          rfl

/-! ## Series-aligner lemmas -/

lemma mem_labelSetFold (sl : List MonthSeries) (acc : List String) (y : String) :
    y ∈ sl.foldl (fun acc s => s.labels.foldl setAdd acc) acc
      ↔ y ∈ acc ∨ ∃ s ∈ sl, y ∈ s.labels := by
  induction sl generalizing acc with
  | nil => simp
  | cons s rest ih =>
      simp only [List.foldl_cons, ih, mem_setFold, List.mem_cons]
      constructor
      · rintro ((h1 | h1) | ⟨s2, h2, h3⟩)
        · exact Or.inl h1
        · exact Or.inr ⟨s, Or.inl rfl, h1⟩
        · exact Or.inr ⟨s2, Or.inr h2, h3⟩
      · rintro (h1 | ⟨s2, h2 | h2, h3⟩)
        · exact Or.inl (Or.inl h1)
        · exact Or.inl (Or.inr (h2 ▸ h3))
        · exact Or.inr ⟨s2, h2, h3⟩

lemma nodup_labelSetFold (sl : List MonthSeries) (acc : List String) (h : acc.Nodup) :
    (sl.foldl (fun acc s => s.labels.foldl setAdd acc) acc).Nodup := by
  induction sl generalizing acc with
  | nil => exact h
  | cons s rest ih => exact ih _ (nodup_setFold _ _ h)

lemma mem_unionFold (sl : List MonthSeries) (x : String) :
    x ∈ sl.foldr (fun s acc => s.labels.toFinset ∪ acc) ∅
      ↔ ∃ s ∈ sl, x ∈ s.labels := by
  induction sl with
  | nil => simp
  | cons s rest ih =>
      simp only [List.foldr_cons, Finset.mem_union, List.mem_toFinset, ih, List.mem_cons]
      constructor
      · rintro (h1 | ⟨s2, h2, h3⟩)
        · exact ⟨s, Or.inl rfl, h1⟩
        · exact ⟨s2, Or.inr h2, h3⟩
      · rintro ⟨s2, h2 | h2, h3⟩
        · exact Or.inl (h2 ▸ h3)
        · exact Or.inr ⟨s2, h2, h3⟩

lemma getD_map_lt {α β : Type} (f : α → β) (l : List α) (i : Nat) (d : α)
    (d2 : β) (h : i < l.length) : (l.map f).getD i d2 = f (l.getD i d) := by
  induction l generalizing i with
  | nil => simp at h
  | cons x xs ih =>
      cases i with
      | zero => rfl
      | succ i2 => exact ih i2 (by simpa using h)

/-- Claim C6: the aligner's labels are the sorted, duplicate-free union of
all input labels (count = union size); every output vector has the labels'
length; and entry k of series s's vector is s's value at label k when s
contains that label (at its first position j, unique when labels are
duplicate-free), else 0. -/
theorem claim_C6 (seriesList : List MonthSeries) :
    (∀ l, l ∈ (alignSeriesLabels seriesList).labels ↔ ∃ s ∈ seriesList, l ∈ s.labels)
    ∧ (alignSeriesLabels seriesList).labels.Nodup
    ∧ (alignSeriesLabels seriesList).labels.Pairwise (fun a b => strLeB a b = true)
    ∧ (alignSeriesLabels seriesList).labels.length
        = (seriesList.foldr (fun (s : MonthSeries) (acc : Finset String) =>
            s.labels.toFinset ∪ acc) ∅).card
    ∧ (alignSeriesLabels seriesList).alignedValues.length = seriesList.length
    ∧ (∀ v ∈ (alignSeriesLabels seriesList).alignedValues,
        v.length = (alignSeriesLabels seriesList).labels.length)
    ∧ (∀ si, si < seriesList.length →
        ∀ k, k < (alignSeriesLabels seriesList).labels.length →
        ((∀ j, ∀ hj : j < (seriesList.getD si ⟨[], []⟩).labels.length,
            (seriesList.getD si ⟨[], []⟩).labels.Nodup →
            (seriesList.getD si ⟨[], []⟩).labels.get ⟨j, hj⟩
              = (alignSeriesLabels seriesList).labels.getD k "" →
            ((alignSeriesLabels seriesList).alignedValues.getD si []).getD k 0
              = (seriesList.getD si ⟨[], []⟩).values.getD j 0)
        ∧ (¬ (alignSeriesLabels seriesList).labels.getD k ""
              ∈ (seriesList.getD si ⟨[], []⟩).labels →
            ((alignSeriesLabels seriesList).alignedValues.getD si []).getD k 0 = 0))) := by
  have hlabels : (alignSeriesLabels seriesList).labels
      = sortStrs (seriesList.foldl (fun acc s => s.labels.foldl setAdd acc) []) := rfl
  have hmem : ∀ l, l ∈ (alignSeriesLabels seriesList).labels
      ↔ ∃ s ∈ seriesList, l ∈ s.labels := by
    intro l
    rw [hlabels, mem_sortStrs, mem_labelSetFold]
    simp
  have hnodup : (alignSeriesLabels seriesList).labels.Nodup := by
    rw [hlabels]
    exact sortStrs_nodup (nodup_labelSetFold seriesList [] List.nodup_nil)
  have hvalue : ∀ si, si < seriesList.length →
      ∀ k, k < (alignSeriesLabels seriesList).labels.length →
      ((alignSeriesLabels seriesList).alignedValues.getD si []).getD k 0
        = (match jsIndexOf (seriesList.getD si ⟨[], []⟩).labels
              ((alignSeriesLabels seriesList).labels.getD k "") with
           | some i => (seriesList.getD si ⟨[], []⟩).values.getD i 0
           | none => 0) := by
    intro si hsi k hk
    have hv : (alignSeriesLabels seriesList).alignedValues
        = seriesList.map (fun s => (alignSeriesLabels seriesList).labels.map (fun l =>
            match jsIndexOf s.labels l with
            | some i => s.values.getD i 0
            | none => 0)) := rfl
    rw [hv]
    rw [getD_map_lt _ seriesList si ⟨[], []⟩ [] hsi]
    rw [getD_map_lt _ (alignSeriesLabels seriesList).labels k "" 0 hk]
  refine ⟨hmem, hnodup, ?_, ?_, by simp [alignSeriesLabels], ?_, ?_⟩
  · rw [hlabels]
    exact sortStrs_sorted _
  · have hfin : (alignSeriesLabels seriesList).labels.toFinset
        = seriesList.foldr (fun s acc => s.labels.toFinset ∪ acc) ∅ := by
      apply Finset.ext
      intro x
      rw [List.mem_toFinset, hmem, mem_unionFold]
    rw [← hfin, List.toFinset_card_of_nodup hnodup]
  · intro v hv
    obtain ⟨s, _, hseq⟩ := List.mem_map.mp hv
    rw [← hseq, List.length_map, hlabels]
  · intro si hsi k hk
    constructor
    · intro j hj hnd hget
      rw [hvalue si hsi k hk, ← hget, jsIndexOf_of_get _ hnd j hj]
    · intro hnotmem
      rw [hvalue si hsi k hk, (jsIndexOf_none_iff _ _).mpr hnotmem]

/-- Two overlapping series used to witness claim C6. -/
def wSLC6 : List MonthSeries :=
  [{ labels := ["2024-01", "2024-03"], values := [5, 7] },
   { labels := ["2024-02"], values := [11] }]

theorem claim_C6_witness :
    (0 < wSLC6.length)
    ∧ (2 < (alignSeriesLabels wSLC6).labels.length)
    ∧ (1 < (wSLC6.getD 0 ⟨[], []⟩).labels.length)
    ∧ (wSLC6.getD 0 ⟨[], []⟩).labels.Nodup
    ∧ ((wSLC6.getD 0 ⟨[], []⟩).labels.get ⟨1, by decide⟩
        = (alignSeriesLabels wSLC6).labels.getD 2 "")
    ∧ ((alignSeriesLabels wSLC6).alignedValues.getD 0 []).getD 2 0
        = (wSLC6.getD 0 ⟨[], []⟩).values.getD 1 0 :=
  ⟨by decide, by decide, by decide, by decide, by decide,
   ((claim_C6 wSLC6).2.2.2.2.2.2 0 (by decide) 2 (by decide)).1 1 (by decide)
     (by decide) (by decide)⟩

/-! ## Month-key aggregation lemmas (claim C7) -/

/-- The value readable from a series at one label, the way a consumer
indexes the aligned output (`indexOf` then read, 0 when absent). -/
def seriesValueAt (s : MonthSeries) (l : String) : ℚ :=
  match jsIndexOf s.labels l with
  | some i => s.values.getD i 0
  | none => 0

lemma rangeSkipped_none (d : String) : rangeSkipped "" "" d = false := rfl

lemma sellAggStep_fiscal (acc : List (String × ℚ) × List (String × ℚ)) (e : SellEntry)
    (hf : e.type = "fiscal") :
    sellAggStep "" "" acc e
      = (mapAdd acc.1 (monthKey e.date) (parseNumber e.amount), acc.2) := by
  unfold sellAggStep
  rw [rangeSkipped_none, if_neg (by simp), if_pos hf]

lemma sellAggStep_nonfiscal (acc : List (String × ℚ) × List (String × ℚ)) (e : SellEntry)
    (hf : ¬ e.type = "fiscal") :
    sellAggStep "" "" acc e
      = (acc.1, mapAdd acc.2 (monthKey e.date) (parseNumber e.amount)) := by
  unfold sellAggStep
  rw [rangeSkipped_none, if_neg (by simp), if_neg hf]

lemma mapGet_mapAdd_self (m : List (String × ℚ)) (k : String) (v : ℚ) :
    mapGet (mapAdd m k v) k = some ((mapGet m k).getD 0 + v) := by
  unfold mapAdd
  rw [mapGet_mapSet_self]

lemma mapGet_mapAdd_ne (m : List (String × ℚ)) (k k2 : String) (v : ℚ) (h : k2 ≠ k) :
    mapGet (mapAdd m k v) k2 = mapGet m k2 := by
  unfold mapAdd
  rw [mapGet_mapSet_ne _ _ _ _ h]

lemma mapKeys_mapAdd (m : List (String × ℚ)) (k : String) (v : ℚ) :
    mapKeys (mapAdd m k v) = if mapContains m k then mapKeys m else mapKeys m ++ [k] := by
  unfold mapAdd
  rw [mapKeys_mapSet]

lemma nodup_mapAdd (m : List (String × ℚ)) (k : String) (v : ℚ)
    (h : (mapKeys m).Nodup) : (mapKeys (mapAdd m k v)).Nodup := by
  rw [mapKeys_mapAdd]
  by_cases hc : mapContains m k = true
  · rw [if_pos hc]; exact h
  · rw [if_neg hc]
    rw [List.nodup_append]
    refine ⟨h, List.nodup_singleton k, ?_⟩
    intro a ha hak
    simp only [List.mem_singleton] at hak
    rw [hak] at ha
    exact hc ((mapContains_iff_mem m k).mpr ha)

lemma sellFold_fst_get (entries : List SellEntry)
    (acc : List (String × ℚ) × List (String × ℚ)) (k : String) :
    ((mapGet (entries.foldl (sellAggStep "" "") acc).1 k).getD 0)
      = ((mapGet acc.1 k).getD 0)
        + ((entries.filter (fun e => (e.type = "fiscal")
            && (monthKey e.date = k))).map (fun e => parseNumber e.amount)).sum := by
  induction entries generalizing acc with
  | nil => simp
  | cons e rest ih =>
      simp only [List.foldl_cons, List.filter_cons]
      by_cases hf : e.type = "fiscal"
      · rw [sellAggStep_fiscal acc e hf, ih]
        by_cases hm : monthKey e.date = k
        · rw [if_pos (by simp [hf, hm]), hm, mapGet_mapAdd_self]
          simp only [Option.getD_some, List.map_cons, List.sum_cons]
          ring
        · rw [if_neg (by simp [hm]),
            mapGet_mapAdd_ne _ _ _ _ (fun hh => hm hh.symm)]
      · rw [sellAggStep_nonfiscal acc e hf, ih, if_neg (by simp [hf])]

lemma sellFold_snd_get (entries : List SellEntry)
    (acc : List (String × ℚ) × List (String × ℚ)) (k : String) :
    ((mapGet (entries.foldl (sellAggStep "" "") acc).2 k).getD 0)
      = ((mapGet acc.2 k).getD 0)
        + ((entries.filter (fun e => (e.type ≠ "fiscal")
            && (monthKey e.date = k))).map (fun e => parseNumber e.amount)).sum := by
  induction entries generalizing acc with
  | nil => simp
  | cons e rest ih =>
      simp only [List.foldl_cons, List.filter_cons]
      by_cases hf : e.type = "fiscal"
      · rw [sellAggStep_fiscal acc e hf, ih, if_neg (by simp [hf])]
      · rw [sellAggStep_nonfiscal acc e hf, ih]
        by_cases hm : monthKey e.date = k
        · rw [if_pos (by simp [hf, hm]), hm, mapGet_mapAdd_self]
          simp only [Option.getD_some, List.map_cons, List.sum_cons]
          ring
        · rw [if_neg (by simp [hm]),
            mapGet_mapAdd_ne _ _ _ _ (fun hh => hm hh.symm)]

lemma mapContains_mapAdd_iff (m : List (String × ℚ)) (k k2 : String) (v : ℚ) :
    mapContains (mapAdd m k v) k2 = true ↔ mapContains m k2 = true ∨ k2 = k := by
  rw [mapContains_iff_mem, mapContains_iff_mem, mapKeys_mapAdd]
  by_cases hc : mapContains m k = true
  · rw [if_pos hc]
    constructor
    · exact Or.inl
    · rintro (h1 | h1)
      · exact h1
      · rw [h1]
        exact (mapContains_iff_mem m k).mp hc
  · rw [if_neg hc]
    simp

lemma sellFold_fst_contains (entries : List SellEntry)
    (acc : List (String × ℚ) × List (String × ℚ)) (k : String) :
    mapContains (entries.foldl (sellAggStep "" "") acc).1 k = true
      ↔ mapContains acc.1 k = true
        ∨ ∃ e ∈ entries, e.type = "fiscal" ∧ monthKey e.date = k := by
  induction entries generalizing acc with
  | nil => simp
  | cons e rest ih =>
      simp only [List.foldl_cons, List.mem_cons]
      by_cases hf : e.type = "fiscal"
      · rw [sellAggStep_fiscal acc e hf, ih]
        show mapContains (mapAdd acc.1 (monthKey e.date) (parseNumber e.amount)) k = true
            ∨ _ ↔ _
        rw [mapContains_mapAdd_iff]
        constructor
        · rintro ((h1 | h1) | ⟨x, hx, h2, h3⟩)
          · exact Or.inl h1
          · exact Or.inr ⟨e, Or.inl rfl, hf, h1.symm⟩
          · exact Or.inr ⟨x, Or.inr hx, h2, h3⟩
        · rintro (h1 | ⟨x, hx1 | hx2, h2, h3⟩)
          · exact Or.inl (Or.inl h1)
          · exact Or.inl (Or.inr (by rw [hx1] at h3; exact h3.symm))
          · exact Or.inr ⟨x, hx2, h2, h3⟩
      · rw [sellAggStep_nonfiscal acc e hf, ih]
        constructor
        · rintro (h1 | ⟨x, hx, h2, h3⟩)
          · exact Or.inl h1
          · exact Or.inr ⟨x, Or.inr hx, h2, h3⟩
        · rintro (h1 | ⟨x, hx1 | hx2, h2, h3⟩)
          · exact Or.inl h1
          · rw [hx1] at h2
            exact absurd h2 hf
          · exact Or.inr ⟨x, hx2, h2, h3⟩

lemma sellFold_snd_contains (entries : List SellEntry)
    (acc : List (String × ℚ) × List (String × ℚ)) (k : String) :
    mapContains (entries.foldl (sellAggStep "" "") acc).2 k = true
      ↔ mapContains acc.2 k = true
        ∨ ∃ e ∈ entries, ¬ e.type = "fiscal" ∧ monthKey e.date = k := by
  induction entries generalizing acc with
  | nil => simp
  | cons e rest ih =>
      simp only [List.foldl_cons, List.mem_cons]
      by_cases hf : e.type = "fiscal"
      · rw [sellAggStep_fiscal acc e hf, ih]
        constructor
        · rintro (h1 | ⟨x, hx, h2, h3⟩)
          · exact Or.inl h1
          · exact Or.inr ⟨x, Or.inr hx, h2, h3⟩
        · rintro (h1 | ⟨x, hx1 | hx2, h2, h3⟩)
          · exact Or.inl h1
          · rw [hx1] at h2
            exact absurd hf h2
          · exact Or.inr ⟨x, hx2, h2, h3⟩
      · rw [sellAggStep_nonfiscal acc e hf, ih]
        show mapContains (mapAdd acc.2 (monthKey e.date) (parseNumber e.amount)) k = true
            ∨ _ ↔ _
        rw [mapContains_mapAdd_iff]
        constructor
        · rintro ((h1 | h1) | ⟨x, hx, h2, h3⟩)
          · exact Or.inl h1
          · exact Or.inr ⟨e, Or.inl rfl, hf, h1.symm⟩
          · exact Or.inr ⟨x, Or.inr hx, h2, h3⟩
        · rintro (h1 | ⟨x, hx1 | hx2, h2, h3⟩)
          · exact Or.inl (Or.inl h1)
          · exact Or.inl (Or.inr (by rw [hx1] at h3; exact h3.symm))
          · exact Or.inr ⟨x, hx2, h2, h3⟩

lemma sellFold_keys_from (entries : List SellEntry)
    (acc : List (String × ℚ) × List (String × ℚ)) :
    (∀ x ∈ mapKeys (entries.foldl (sellAggStep "" "") acc).1,
      x ∈ mapKeys acc.1 ∨ ∃ e ∈ entries, x = monthKey e.date)
    ∧ (∀ x ∈ mapKeys (entries.foldl (sellAggStep "" "") acc).2,
      x ∈ mapKeys acc.2 ∨ ∃ e ∈ entries, x = monthKey e.date) := by
  induction entries generalizing acc with
  | nil => exact ⟨fun x hx => Or.inl hx, fun x hx => Or.inl hx⟩
  | cons e rest ih =>
      simp only [List.foldl_cons, List.mem_cons]
      have hsub : ∀ (m : List (String × ℚ)) (x : String),
          x ∈ mapKeys (mapAdd m (monthKey e.date) (parseNumber e.amount))
            → x ∈ mapKeys m ∨ x = monthKey e.date := by
        intro m x hx
        rw [mapKeys_mapAdd] at hx
        by_cases hc : mapContains m (monthKey e.date) = true
        · rw [if_pos hc] at hx
          exact Or.inl hx
        · rw [if_neg hc] at hx
          rcases List.mem_append.mp hx with h1 | h1
          · exact Or.inl h1
          · simp only [List.mem_singleton] at h1
            exact Or.inr h1
      by_cases hf : e.type = "fiscal"
      · rw [sellAggStep_fiscal acc e hf]
        refine ⟨fun x hx => ?_, fun x hx => ?_⟩
        · rcases (ih _).1 x hx with h1 | ⟨e2, he2, hk2⟩
          · rcases hsub acc.1 x h1 with h2 | h2
            · exact Or.inl h2
            · exact Or.inr ⟨e, Or.inl rfl, h2⟩
          · exact Or.inr ⟨e2, Or.inr he2, hk2⟩
        · rcases (ih _).2 x hx with h1 | ⟨e2, he2, hk2⟩
          · exact Or.inl h1
          · exact Or.inr ⟨e2, Or.inr he2, hk2⟩
      · rw [sellAggStep_nonfiscal acc e hf]
        refine ⟨fun x hx => ?_, fun x hx => ?_⟩
        · rcases (ih _).1 x hx with h1 | ⟨e2, he2, hk2⟩
          · exact Or.inl h1
          · exact Or.inr ⟨e2, Or.inr he2, hk2⟩
        · rcases (ih _).2 x hx with h1 | ⟨e2, he2, hk2⟩
          · rcases hsub acc.2 x h1 with h2 | h2
            · exact Or.inl h2
            · exact Or.inr ⟨e, Or.inl rfl, h2⟩
          · exact Or.inr ⟨e2, Or.inr he2, hk2⟩

lemma sellFold_nodup (entries : List SellEntry)
    (acc : List (String × ℚ) × List (String × ℚ))
    (h1 : (mapKeys acc.1).Nodup) (h2 : (mapKeys acc.2).Nodup) :
    (mapKeys (entries.foldl (sellAggStep "" "") acc).1).Nodup
    ∧ (mapKeys (entries.foldl (sellAggStep "" "") acc).2).Nodup := by
  induction entries generalizing acc with
  | nil => exact ⟨h1, h2⟩
  | cons e rest ih =>
      simp only [List.foldl_cons]
      by_cases hf : e.type = "fiscal"
      · rw [sellAggStep_fiscal acc e hf]
        exact ih _ (nodup_mapAdd _ _ _ h1) h2
      · rw [sellAggStep_nonfiscal acc e hf]
        exact ih _ h1 (nodup_mapAdd _ _ _ h2)

lemma getD_eq_get {α : Type} (l : List α) (i : Nat) (d : α) (h : i < l.length) :
    l.getD i d = l.get ⟨i, h⟩ := by
  induction l generalizing i with
  | nil => simp at h
  | cons x xs ih =>
      cases i with
      | zero => rfl
      | succ i2 => exact ih i2 (by simpa using h)

lemma seriesValueAt_mts (m : List (String × ℚ)) (hnd : (mapKeys m).Nodup) (l : String) :
    seriesValueAt (mapToSortedSeries m) l = (mapGet m l).getD 0 := by
  have hlabels : (mapToSortedSeries m).labels = sortStrs (mapKeys m) := rfl
  have hvals : (mapToSortedSeries m).values
      = (sortStrs (mapKeys m)).map (fun l => (mapGet m l).getD 0) := rfl
  unfold seriesValueAt
  rw [hlabels, hvals]
  by_cases hl : l ∈ sortStrs (mapKeys m)
  · obtain ⟨⟨i, hi⟩, hgi⟩ := List.mem_iff_get.mp hl
    rw [← hgi, jsIndexOf_of_get _ (sortStrs_nodup hnd) i hi]
    show (List.map (fun l => (mapGet m l).getD 0) (sortStrs (mapKeys m))).getD i 0
        = (mapGet m ((sortStrs (mapKeys m)).get ⟨i, hi⟩)).getD 0
    rw [getD_map_lt _ _ _ "" _ hi, getD_eq_get _ _ _ hi]
  · rw [(jsIndexOf_none_iff _ _).mpr hl]
    rw [mapGet_none_of_not_mem (fun hmem => hl ((mem_sortStrs _ _).mpr hmem))]
    rfl

/-! ## Month-key sentinel facts -/

lemma decDigit_toNat (k : Nat) :
    48 ≤ (decDigit k).toNat ∧ (decDigit k).toNat ≤ 57 := by
  unfold decDigit
  have hr : k % 10 < 10 := Nat.mod_lt _ (by norm_num)
  set r := k % 10 with hrr
  interval_cases r <;> decide

lemma natStr_head (y : Nat) :
    ∃ c cs, (natStr y).data = c :: cs ∧ c.toNat ≤ 57 := by
  unfold natStr
  by_cases h1 : y < 10
  · rw [if_pos h1]
    exact ⟨decDigit y, [], rfl, (decDigit_toNat y).2⟩
  · rw [if_neg h1]
    by_cases h2 : y < 100
    · rw [if_pos h2]
      exact ⟨decDigit (y / 10), _, rfl, (decDigit_toNat (y / 10)).2⟩
    · rw [if_neg h2]
      by_cases h3 : y < 1000
      · rw [if_pos h3]
        exact ⟨decDigit (y / 100), _, rfl, (decDigit_toNat (y / 100)).2⟩
      · rw [if_neg h3]
        exact ⟨decDigit (y / 1000), _, rfl, (decDigit_toNat (y / 1000)).2⟩

lemma monthKey_head (d : String) :
    monthKey d = "Unknown"
      ∨ ∃ c cs, (monthKey d).data = c :: cs ∧ c.toNat ≤ 57 := by
  unfold monthKey
  by_cases he : d = ""
  · rw [if_pos he]
    exact Or.inl rfl
  · rw [if_neg he]
    cases hp : parseYMD d with
    | none => exact Or.inl rfl
    | some t =>
        right
        obtain ⟨c, cs, hdata, hb⟩ := natStr_head t.1
        refine ⟨c, cs ++ ('-' :: (pad2 t.2.1).data), ?_, hb⟩
        rw [String.data_append, String.data_append, hdata]
        simp

lemma head_ne_unknown {s : String} {c : Char} {cs : List Char}
    (h : s.data = c :: cs) (hb : c.toNat ≤ 57) : s ≠ "Unknown" := by
  intro he
  rw [he] at h
  rw [show ("Unknown" : String).data = 'U' :: "nknown".data from rfl] at h
  have hc : c = 'U' := (List.cons.injEq _ _ _ _ ▸ h).1.symm
  rw [hc] at hb
  exact absurd hb (by decide)

lemma head_lt_unknown {s : String} {c : Char} {cs : List Char}
    (h : s.data = c :: cs) (hb : c.toNat ≤ 57) : strLtB s "Unknown" = true := by
  unfold strLtB
  rw [h, show ("Unknown" : String).data = 'U' :: "nknown".data from rfl]
  unfold lexLtB
  rw [if_pos (by
    have : ('U' : Char).toNat = 85 := by decide
    omega)]

lemma monthKey_unknown_iff (d : String) :
    monthKey d = "Unknown" ↔ (d = "" ∨ validYMD d = false) := by
  constructor
  · intro h
    by_cases he : d = ""
    · exact Or.inl he
    · right
      unfold monthKey at h
      rw [if_neg he] at h
      cases hp : parseYMD d with
      | none => unfold validYMD; rw [hp]; rfl
      | some t =>
          rw [hp] at h
          obtain ⟨c, cs, hdata, hb⟩ := natStr_head t.1
          exfalso
          refine @head_ne_unknown (natStr t.1 ++ "-" ++ pad2 t.2.1)
            c (cs ++ ('-' :: (pad2 t.2.1).data)) ?_ hb ?_
          · rw [String.data_append, String.data_append, hdata]
            simp
          · exact h
  · intro h
    unfold monthKey
    rcases h with h1 | h1
    · rw [if_pos h1]
    · by_cases he : d = ""
      · rw [if_pos he]
      · rw [if_neg he]
        unfold validYMD at h1
        cases hp : parseYMD d with
        | none => rfl
        | some t => rw [hp] at h1; simp at h1

lemma monthKey_unknown_bool (d : String) :
    (decide (monthKey d = "Unknown")) = ((decide (d = "")) || !validYMD d) := by
  by_cases h : monthKey d = "Unknown"
  · rw [decide_eq_true h]
    rcases (monthKey_unknown_iff d).mp h with h1 | h1
    · rw [decide_eq_true h1]; rfl
    · rw [h1]
      simp
  · have h2 : ¬ (d = "" ∨ validYMD d = false) :=
      fun hh => h ((monthKey_unknown_iff d).mpr hh)
    push_neg at h2
    have h3 : validYMD d = true := by
      cases hv : validYMD d
      · exact absurd hv h2.2
      · rfl
    rw [decide_eq_false h, decide_eq_false h2.1, h3]
    rfl

/-- Claim C7: with no date bounds, a sell entry whose date is empty or
unparseable is not dropped: its amount is aggregated under the sentinel
label "Unknown" of its classification's series, the label "Unknown" is
present exactly when such an entry exists, and "Unknown" sorts after every
other (digit-headed `YYYY-MM`) label of the output. -/
theorem claim_C7 (entries : List SellEntry) :
    (seriesValueAt (aggregateByMonthSell entries "" "").fiscal "Unknown"
      = ((entries.filter (fun e => (e.type = "fiscal")
          && ((e.date = "") || !validYMD e.date))).map
          (fun e => parseNumber e.amount)).sum)
    ∧ (seriesValueAt (aggregateByMonthSell entries "" "").nonFiscal "Unknown"
      = ((entries.filter (fun e => (e.type ≠ "fiscal")
          && ((e.date = "") || !validYMD e.date))).map
          (fun e => parseNumber e.amount)).sum)
    ∧ ("Unknown" ∈ (aggregateByMonthSell entries "" "").fiscal.labels
        ↔ ∃ e ∈ entries, e.type = "fiscal" ∧ (e.date = "" ∨ validYMD e.date = false))
    ∧ ("Unknown" ∈ (aggregateByMonthSell entries "" "").nonFiscal.labels
        ↔ ∃ e ∈ entries, ¬ e.type = "fiscal" ∧ (e.date = "" ∨ validYMD e.date = false))
    ∧ (∀ l ∈ (aggregateByMonthSell entries "" "").fiscal.labels,
        l ≠ "Unknown" → strLtB l "Unknown" = true)
    ∧ (∀ l ∈ (aggregateByMonthSell entries "" "").nonFiscal.labels,
        l ≠ "Unknown" → strLtB l "Unknown" = true) := by
  have hnd := sellFold_nodup entries ([], []) (by simp [mapKeys]) (by simp [mapKeys])
  have hfis : (aggregateByMonthSell entries "" "").fiscal
      = mapToSortedSeries (entries.foldl (sellAggStep "" "") ([], [])).1 := rfl
  have hnon : (aggregateByMonthSell entries "" "").nonFiscal
      = mapToSortedSeries (entries.foldl (sellAggStep "" "") ([], [])).2 := rfl
  have hpt1 : ∀ e ∈ entries,
      (((e.type = "fiscal") && (monthKey e.date = "Unknown")) : Bool)
        = ((e.type = "fiscal") && ((e.date = "") || !validYMD e.date)) := by
    intro e _
    rw [monthKey_unknown_bool e.date]
  have hpt2 : ∀ e ∈ entries,
      (((e.type ≠ "fiscal") && (monthKey e.date = "Unknown")) : Bool)
        = ((e.type ≠ "fiscal") && ((e.date = "") || !validYMD e.date)) := by
    intro e _
    rw [monthKey_unknown_bool e.date]
  refine ⟨?_, ?_, ?_, ?_, ?_, ?_⟩
  · rw [hfis, seriesValueAt_mts _ hnd.1, sellFold_fst_get,
      List.filter_congr hpt1]
    simp [mapGet]
  · rw [hnon, seriesValueAt_mts _ hnd.2, sellFold_snd_get,
      List.filter_congr hpt2]
    simp [mapGet]
  · rw [hfis,
      show (mapToSortedSeries (entries.foldl (sellAggStep "" "") ([], [])).1).labels
        = sortStrs (mapKeys (entries.foldl (sellAggStep "" "") ([], [])).1) from rfl,
      mem_sortStrs, ← mapContains_iff_mem, sellFold_fst_contains]
    rw [show mapContains (([], []) :
        List (String × ℚ) × List (String × ℚ)).1 "Unknown" = false from rfl]
    simp only [Bool.false_eq_true, false_or]
    constructor
    · rintro ⟨e, he, hf, hm⟩
      exact ⟨e, he, hf, (monthKey_unknown_iff e.date).mp hm⟩
    · rintro ⟨e, he, hf, hm⟩
      exact ⟨e, he, hf, (monthKey_unknown_iff e.date).mpr hm⟩
  · rw [hnon,
      show (mapToSortedSeries (entries.foldl (sellAggStep "" "") ([], [])).2).labels
        = sortStrs (mapKeys (entries.foldl (sellAggStep "" "") ([], [])).2) from rfl,
      mem_sortStrs, ← mapContains_iff_mem, sellFold_snd_contains]
    rw [show mapContains (([], []) :
        List (String × ℚ) × List (String × ℚ)).2 "Unknown" = false from rfl]
    simp only [Bool.false_eq_true, false_or]
    constructor
    · rintro ⟨e, he, hf, hm⟩
      exact ⟨e, he, hf, (monthKey_unknown_iff e.date).mp hm⟩
    · rintro ⟨e, he, hf, hm⟩
      exact ⟨e, he, hf, (monthKey_unknown_iff e.date).mpr hm⟩
  · intro l hl hne
    rw [hfis,
      show (mapToSortedSeries (entries.foldl (sellAggStep "" "") ([], [])).1).labels
        = sortStrs (mapKeys (entries.foldl (sellAggStep "" "") ([], [])).1) from rfl,
      mem_sortStrs] at hl
    rcases (sellFold_keys_from entries ([], [])).1 l hl with h1 | ⟨e, _, hk⟩
    · simp [mapKeys] at h1
    · rcases monthKey_head e.date with h2 | ⟨c, cs, hdata, hb⟩
      · rw [hk] at hne
        exact absurd h2 hne
      · rw [hk]
        exact head_lt_unknown hdata hb
  · intro l hl hne
    rw [hnon,
      show (mapToSortedSeries (entries.foldl (sellAggStep "" "") ([], [])).2).labels
        = sortStrs (mapKeys (entries.foldl (sellAggStep "" "") ([], [])).2) from rfl,
      mem_sortStrs] at hl
    rcases (sellFold_keys_from entries ([], [])).2 l hl with h1 | ⟨e, _, hk⟩
    · simp [mapKeys] at h1
    · rcases monthKey_head e.date with h2 | ⟨c, cs, hdata, hb⟩
      · rw [hk] at hne
        exact absurd h2 hne
      · rw [hk]
        exact head_lt_unknown hdata hb

/-- Sell entries with an empty date, an unparseable date, and a good date,
used to witness claim C7. -/
def wEntC7 : List SellEntry :=
  [{ date := "", type := "fiscal", amount := jnum 9 },
   { date := "2024-05-03", type := "x", amount := jnum 3 }]

theorem claim_C7_witness :
    (seriesValueAt (aggregateByMonthSell wEntC7 "" "").fiscal "Unknown"
      = ((wEntC7.filter (fun e => (e.type = "fiscal")
          && ((e.date = "") || !validYMD e.date))).map
          (fun e => parseNumber e.amount)).sum)
    ∧ ("2024-05" ∈ (aggregateByMonthSell wEntC7 "" "").nonFiscal.labels)
    ∧ ("2024-05" ≠ "Unknown")
    ∧ strLtB "2024-05" "Unknown" = true :=
  ⟨(claim_C7 wEntC7).1, by decide, by decide,
   (claim_C7 wEntC7).2.2.2.2.2 "2024-05" (by decide) (by decide)⟩
